import Mathlib

/-!
# Dynamic seat allocation: a shallow embedding of `Dynamic_Seat_Allocation.c`

The C program keeps its whole state in five globals (`hall`, `list`, `count`,
`rows`, `cols`) and one data file.  The embedding bundles them into one `State`
value that every operation takes and returns.

Modelling conventions
* C `int` is `Int`.  No arithmetic of the embedded functions can overflow for
  the values they handle (loop counters bounded by `rows`, `cols`, `count`).
* `list`/`count` (an array of `count` student pointers) is a Lean `List Student`;
  `count` is its length.
* `hall` (`Seat **`, `NULL` or `rows` arrays of `cols` seats) is
  `Option (List (List Seat))`.
* `malloc`, `calloc`, `realloc` and `fopen(..., "wb")` are taken to succeed.
* A C string is a Lean `String`; `strcpy` into `char name[50]` is not bounded,
  and `storedName` gives what the name field holds afterwards.
* The data file is kept at the level of its records (`FileImage`): the three
  header integers and the student records that follow them.
* The text log (`log_action`) and the HTML output are not part of the state.
-/

namespace SeatAlloc

/-! ## Configuration -/

/-- The constant `MAX_ROWS` (`#define MAX_ROWS 100`). -/
def MAX_ROWS : Int := 100

/-- The constant `MAX_COLS` (`#define MAX_COLS 100`). -/
def MAX_COLS : Int := 100

/-- The constant `MAX_STUDENTS` (`#define MAX_STUDENTS 500`). -/
def MAX_STUDENTS : Int := 500

/-! ## Data model -/

/-- The record `Student`: `typedef struct { int roll; char name[50]; int row, col; } Student;`.
The name is the C string that reads back from the 50-byte field (see
`storedName` for what `strcpy` leaves there). -/
structure Student where
  roll : Int
  name : String
  row : Int
  col : Int
deriving DecidableEq, Inhabited

/-- The record `Seat`: `typedef struct { int occupied; int roll; } Seat;`. -/
structure Seat where
  occupied : Int
  roll : Int
deriving DecidableEq

/-- A zeroed seat, as `calloc` produces it. -/
instance : Inhabited Seat := ⟨⟨0, 0⟩⟩

/-- The seat matrix behind a non-`NULL` `hall`: a list of rows. -/
abbrev Hall := List (List Seat)

/-- Contents of `students.dat` at record level: the header written by
`save_binary` (`rows`, `cols`, `count`) and the complete student records that
follow it. -/
structure FileImage where
  rows : Int
  cols : Int
  count : Int
  records : List Student
deriving DecidableEq

/-- The globals `rows`, `cols`, `hall`, `list` (with `count = list.length`) and
the data file (`none` when the file does not exist). -/
structure State where
  rows : Int
  cols : Int
  hall : Option Hall
  list : List Student
  file : Option FileImage
deriving DecidableEq

/-- The state before anything was loaded: `hall = NULL`, `list = NULL`,
`count = 0`, `rows = cols = 0`, no data file. -/
def State.empty : State := ⟨0, 0, none, [], none⟩

/-- What `allocate_random` / `deallocate_seat` write into `msg`, one constructor
per message text:
* `noHallConfigured` : "Please set Rows and Columns first."
* `duplicateRoll r`  : "Roll r is already allocated!"
* `hallFull`         : "Hall is full! Increase rows/cols to add more."
* `allocated n r i j`: "Allocated n (r) at (i, j)"
* `rollNotFound`     : "Roll number not found!"
* `deallocated r i j`: "Deallocated Roll r from (i, j)." -/
inductive Msg where
  | noHallConfigured
  | duplicateRoll (roll : Int)
  | hallFull
  | allocated (name : String) (roll : Int) (i j : Nat)
  | rollNotFound
  | deallocated (roll : Int) (r c : Int)
deriving DecidableEq

/-! ## Loops -/

/-- The loop `for (i = 0; i < n; i++) body(i)` acting on a value `s`:
iterations `0, 1, ..., n-1` in this order. -/
def forLoop {σ : Type} (n : Nat) (body : Nat → σ → σ) (s : σ) : σ :=
  match n with
  | 0 => s
  | k + 1 => body k (forLoop k body s)

/-- The loop `for (i = 0; i < n; i++) if (...) return ...;`: the value
returned by the first iteration (lowest `i`) that returns, `none` when the loop
runs to its end. -/
def scanLoop {α : Type} (n : Nat) (f : Nat → Option α) : Option α :=
  match n with
  | 0 => none
  | k + 1 =>
    match scanLoop k f with
    | some a => some a
    | none => f k

/-! ## Seat access -/

/-- The seat read by `hall[i][j]`. -/
def seatAt (g : Hall) (i j : Nat) : Seat := (g.getD i []).getD j default

/-- The effect of the two stores `hall[i][j].occupied = ..; hall[i][j].roll = ..`. -/
def setSeat (g : Hall) (i j : Nat) (s : Seat) : Hall :=
  g.set i ((g.getD i []).set j s)

/-- Seat `(i, j)` of a state; a state without a grid has no occupied seat. -/
def State.seat (st : State) (i j : Nat) : Seat :=
  match st.hall with
  | some g => seatAt g i j
  | none => default

/-! ## Operations -/

/-- Embeds `save_binary`: writes `rows`, `cols`, `count` and the `count` students. -/
def save_binary (st : State) : State :=
  { st with file := some ⟨st.rows, st.cols, st.list.length, st.list⟩ }

/-- Embeds `reset_system`: zeroes the dimensions and the count, drops the grid and the
roster, removes the data file. -/
def reset_system (_st : State) : State :=
  ⟨0, 0, none, [], none⟩

/-- Embeds `ensure_hall_allocated`: nothing to do for a non-positive dimension
or an existing grid; a reset for a dimension above the maximum; otherwise a
fresh grid of `rows` zeroed rows of `cols` seats. -/
def ensure_hall_allocated (st : State) : State :=
  if st.rows ≤ 0 ∨ st.cols ≤ 0 then st
  else if st.hall.isSome then st
  else if st.rows > MAX_ROWS ∨ st.cols > MAX_COLS then reset_system st
  else { st with hall := some (List.replicate st.rows.toNat (List.replicate st.cols.toNat ⟨0, 0⟩)) }

/-- First loop nest of `rebuild_hall_map`: every seat `(i, j)` with `i < rows`,
`j < cols` gets `occupied = 0`, `roll = 0`. -/
def clearHall (rows cols : Nat) (g : Hall) : Hall :=
  forLoop rows (fun i g1 => forLoop cols (fun j g2 => setSeat g2 i j ⟨0, 0⟩) g1) g

/-- Body of the second loop of `rebuild_hall_map` for one student. -/
def placeStudent (rows cols : Int) (g : Hall) (s : Student) : Hall :=
  if 0 ≤ s.row ∧ s.row < rows ∧ 0 ≤ s.col ∧ s.col < cols then
    setSeat g s.row.toNat s.col.toNat ⟨1, s.roll⟩
  else g

/-- Embeds `rebuild_hall_map`: without a grid it only calls
`ensure_hall_allocated`; with a grid it clears every seat and then places the
roster students, in roster order, that fit in the current dimensions. -/
def rebuild_hall_map (st : State) : State :=
  match st.hall with
  | none => ensure_hall_allocated st
  | some g =>
    let g1 := clearHall st.rows.toNat st.cols.toNat g
    { st with hall := some (st.list.foldl (placeStudent st.rows st.cols) g1) }

/-- Embeds `find_student`: the first roster entry with the given roll. -/
def find_student (st : State) (roll : Int) : Option Student :=
  st.list.find? (fun s => s.roll = roll)

/-- The scan of `allocate_random` for the first seat with `occupied == 0`,
rows ascending, columns ascending inside a row. -/
def firstFree (st : State) : Option (Nat × Nat) :=
  scanLoop st.rows.toNat (fun i =>
    scanLoop st.cols.toNat (fun j =>
      if (st.seat i j).occupied = 0 then some (i, j) else none))

/-- The four bytes of a non-negative `int`, lowest first. -/
def leBytes (v : Nat) : List Nat :=
  [v % 256, v / 256 % 256, v / 65536 % 256, v / 16777216 % 256]

/-- The string that reads back from `s->name` after
`strcpy(s->name, name); s->row = row; s->col = col;`.  The field is
`char name[50]`, and `strcpy` is not bounded: a name of at most 49 bytes fits
with its terminator and reads back as given.  A longer name runs past the
field.  For that case the struct is laid out as usual (4-byte little-endian
`int`: `roll` at offset 0, `name` at 4, two padding bytes, `row` at 56, `col` at
60) and the name is taken as a sequence of one-byte characters: bytes 50 and 51
land in the padding, from byte 52 on they are overwritten by the stores to `row`
and `col`, so the field reads back as the first 52 bytes followed by the bytes
of `row` and `col` up to their first zero byte.  What lies behind the struct is
not represented. -/
def storedName (name : String) (row col : Nat) : String :=
  if name.utf8ByteSize ≤ 49 then name
  else
    String.mk (name.data.take 52 ++
      (if 52 ≤ name.data.length then
        ((leBytes row ++ leBytes col).takeWhile (fun b => b ≠ 0)).map Char.ofNat
      else []))

/-- Embeds `allocate_random`: the message and the state it leaves.  Despite its
name the function takes the first free seat of a row-major scan.  The message
is formatted from the `name` argument, the roster entry holds what `strcpy` left
in the name field (`storedName`). -/
def allocate_random (st : State) (roll : Int) (name : String) : State × Msg :=
  if st.rows = 0 ∨ st.cols = 0 then (st, Msg.noHallConfigured)
  else
    let st1 := if st.hall.isNone then ensure_hall_allocated st else st
    if (find_student st1 roll).isSome then (st1, Msg.duplicateRoll roll)
    else
      match firstFree st1 with
      | some (i, j) =>
        let s : Student := ⟨roll, storedName name i j, i, j⟩
        let st2 : State :=
          { st1 with
            list := st1.list ++ [s]
            hall := st1.hall.map (fun g => setSeat g i j ⟨1, roll⟩) }
        (save_binary st2, Msg.allocated name roll i j)
      | none => (st1, Msg.hallFull)

/-- Inner loop of the removal in `deallocate_seat`:
`for (j = i; j < count - 1; j++) list[j] = list[j + 1];`. -/
def shiftLeft (l : List Student) (i : Nat) : List Student :=
  forLoop (l.length - 1 - i) (fun k l1 => l1.set (i + k) (l1.getD (i + k + 1) default)) l

/-- Removal loop of `deallocate_seat`: at the first index whose roll matches,
shift the tail one slot left and decrement `count`; the array is then cut to the
new `count`. -/
def removeRoll (l : List Student) (roll : Int) : List Student :=
  match scanLoop l.length (fun i => if (l.getD i default).roll = roll then some i else none) with
  | some i => (shiftLeft l i).take (l.length - 1)
  | none => l

/-- Embeds `deallocate_seat`: the message and the state it leaves. -/
def deallocate_seat (st : State) (roll : Int) : State × Msg :=
  match find_student st roll with
  | none => (st, Msg.rollNotFound)
  | some s =>
    let r := s.row
    let c := s.col
    let hall1 : Option Hall :=
      match st.hall with
      | some g =>
        if 0 ≤ r ∧ r < st.rows ∧ 0 ≤ c ∧ c < st.cols then
          some (setSeat g r.toNat c.toNat ⟨0, 0⟩)
        else some g
      | none => none
    (save_binary { st with hall := hall1, list := removeRoll st.list roll },
      Msg.deallocated roll r c)

/-- The resize step of `main` (section 3, "Handling Resizing") for the requested
dimensions `newRows`, `newCols`. -/
def resize (st : State) (newRows newCols : Int) : State :=
  if newRows > 0 ∧ newCols > 0 ∧ (newRows ≠ st.rows ∨ newCols ≠ st.cols) then
    let st1 : State := { st with hall := none }
    let st2 : State := { st1 with rows := newRows, cols := newCols }
    let st3 := save_binary st2
    let st4 := ensure_hall_allocated st3
    rebuild_hall_map st4
  else if st.rows > 0 ∧ st.cols > 0 then ensure_hall_allocated st
  else st

/-- States reachable from the empty state by resize, allocate and deallocate
calls with arbitrary arguments. -/
inductive Reachable : State → Prop where
  | empty : Reachable State.empty
  | resize (st : State) (newRows newCols : Int) :
      Reachable st → Reachable (resize st newRows newCols)
  | allocate (st : State) (roll : Int) (name : String) :
      Reachable st → Reachable (allocate_random st roll name).1
  | deallocate (st : State) (roll : Int) :
      Reachable st → Reachable (deallocate_seat st roll).1


/-! ## Auxiliary notions used in the statements -/

/-- The student's stored position is seat `(i, j)`. -/
def Student.isAt (s : Student) (i j : Nat) : Prop := s.row = (i : Int) ∧ s.col = (j : Int)

instance (s : Student) (i j : Nat) : Decidable (s.isAt i j) := by
  unfold Student.isAt; infer_instance

/-- The last roster entry, in roster order, whose stored position is `(i, j)`. -/
def lastAt (l : List Student) (i j : Nat) : Option Student :=
  l.reverse.find? (fun s => decide (s.isAt i j))

/-- The seat contents that a rebuild gives a seat claimed (or not) by a student. -/
def seatFor : Option Student → Seat
  | some s => ⟨1, s.roll⟩
  | none => ⟨0, 0⟩

/-- A grid of `n` rows with `m` seats each. -/
def Shaped (g : Hall) (n m : Nat) : Prop :=
  g.length = n ∧ ∀ row, row ∈ g → row.length = m


/-- The state `allocate_random` works on after its call of `ensure_hall_allocated`. -/
def allocPrep (st : State) : State :=
  if st.hall.isNone then ensure_hall_allocated st else st

/-- The grid `deallocate_seat` leaves for a student stored at `(r, c)`. -/
def clearedHall (st : State) (r c : Int) : Option Hall :=
  match st.hall with
  | some g =>
    if 0 ≤ r ∧ r < st.rows ∧ 0 ≤ c ∧ c < st.cols then
      some (setSeat g r.toNat c.toNat ⟨0, 0⟩)
    else some g
  | none => none


/-! ## The consistency invariant -/

/-- The consistency invariant of the data model: every roster student whose
stored position is inside the grid bounds sits in a grid whose seat at that
position is occupied with the student's roll, and every occupied seat inside the
bounds has exactly one roster entry with the seat's roll and the seat's
position. -/
def Consistent (st : State) : Prop :=
  (∀ s, s ∈ st.list → (0 ≤ s.row ∧ s.row < st.rows ∧ 0 ≤ s.col ∧ s.col < st.cols) →
    ∃ g, st.hall = some g ∧ seatAt g s.row.toNat s.col.toNat = ⟨1, s.roll⟩) ∧
  (∀ g, st.hall = some g → ∀ i j, i < st.rows.toNat → j < st.cols.toNat →
    (seatAt g i j).occupied ≠ 0 →
    (st.list.filter
      (fun s => decide (s.roll = (seatAt g i j).roll ∧ s.isAt i j))).length = 1)

/-- The invariant carried along every reachable state: rolls are unique,
stored positions are unique, and either the state is the empty one or it has a
grid of `rows` x `cols` seats, within the maximal dimensions, that is exactly
the occupancy the roster describes. -/
def Inv (st : State) : Prop :=
  (st.list.map Student.roll).Nodup ∧
  (st.list.map (fun s => (s.row, s.col))).Nodup ∧
  ((st.hall = none ∧ st.rows = 0 ∧ st.cols = 0 ∧ st.list = []) ∨
    (0 < st.rows ∧ st.rows ≤ MAX_ROWS ∧ 0 < st.cols ∧ st.cols ≤ MAX_COLS ∧
      ∃ g, st.hall = some g ∧ Shaped g st.rows.toNat st.cols.toNat ∧
        ∀ i j, i < st.rows.toNat → j < st.cols.toNat →
          seatAt g i j = seatFor (lastAt st.list i j)))


/-! ## Concrete states used as examples -/

/-- Dimensions 101 x 1 with no grid, one student with roll 7. -/
def oversizedState : State := ⟨101, 1, none, [⟨7, "a", 0, 0⟩], none⟩

/-- Dimensions 2 x 2 with no grid yet, one student with roll 7 stored at `(5, 5)`. -/
def gridlessState : State := ⟨2, 2, none, [⟨7, "a", 5, 5⟩], none⟩

/-- A 2 x 2 hall with rolls 1, 2, 3 seated at `(0,0)`, `(0,1)`, `(1,0)`. -/
def threeSeated : State :=
  ⟨2, 2, some [[⟨1, 1⟩, ⟨1, 2⟩], [⟨1, 3⟩, ⟨0, 0⟩]],
    [⟨1, "a", 0, 0⟩, ⟨2, "b", 0, 1⟩, ⟨3, "c", 1, 0⟩], none⟩

/-- A name of 52 bytes. -/
def longName : String := String.mk (List.replicate 52 (Char.ofNat 110))

/-- A 1 x 1 hall holding roll 1, with roll 4 orphaned at `(1, 1)`. -/
def orphanState : State :=
  ⟨1, 1, some [[⟨1, 1⟩]], [⟨1, "a", 0, 0⟩, ⟨4, "d", 1, 1⟩], none⟩


/-- The empty state resized to 2 x 2 with rolls 1, 2, 3, 4 allocated in turn. -/
def fullHall : State :=
  (allocate_random (allocate_random (allocate_random (allocate_random
    (resize State.empty 2 2) 1 "a").1 2 "b").1 3 "c").1 4 "d").1


/-! ## Loading the data file -/

/-- What `load_binary` leaves behind: the globals and the file, and the global
`count` on its own, because after a short read `count` keeps the declared value
while fewer records were read (the array slots behind them are uninitialised
memory in C and are not represented). -/
structure Loaded where
  state : State
  count : Int
deriving DecidableEq

/-- The globals at process start (`hall = NULL`, `list = NULL`, `count = 0`,
`rows = cols = 0`) next to the data file found on disk. -/
def processStart (file : Option FileImage) : State := ⟨0, 0, none, [], file⟩

/-- Embeds `load_binary` for a file that has at least its three header
integers (a missing file leaves everything as it is): a header outside the
limits is answered by `reset_system`; otherwise `rows`, `cols`, `count` are
taken from the header, the grid is ensured, and only when `count > 0` and the
grid exists the records are read, one by one until `count` are read or the file
ends, and the grid is rebuilt. -/
def load_binary (st : State) : Loaded :=
  match st.file with
  | none => ⟨st, st.list.length⟩
  | some f =>
    if f.rows < 0 ∨ f.rows > MAX_ROWS ∨ f.cols < 0 ∨ f.cols > MAX_COLS ∨
        f.count < 0 ∨ f.count > MAX_STUDENTS then
      ⟨reset_system st, 0⟩
    else
      let st1 := ensure_hall_allocated { st with rows := f.rows, cols := f.cols }
      if f.count > 0 ∧ st1.hall.isSome then
        let st2 : State := { st1 with list := f.records.take f.count.toNat }
        ⟨rebuild_hall_map st2, f.count⟩
      else ⟨st1, f.count⟩

/-! ## Runs of allocation requests -/

/-- The messages of the allocation requests `(roll, name)` made one after
another, starting in `st`. -/
def allocateAll (st : State) : List (Int × String) → List Msg
  | [] => []
  | (roll, name) :: rest =>
    (allocate_random st roll name).2 :: allocateAll (allocate_random st roll name).1 rest

/-- The state after the allocation requests `(roll, name)` made one after
another, starting in `st`. -/
def allocateRun (st : State) : List (Int × String) → State
  | [] => st
  | (roll, name) :: rest => allocateRun (allocate_random st roll name).1 rest

/-- A hall of `R` x `C` seats in which exactly the first `k` seats in row-major
order are occupied, with a roster whose rolls are `rolls`. -/
def Filled (st : State) (R C k : Nat) (rolls : List Int) : Prop :=
  st.rows = (R : Int) ∧ st.cols = (C : Int) ∧ st.list.map Student.roll = rolls ∧
  ∃ g, st.hall = some g ∧ Shaped g R C ∧
    ∀ i j, i < R → j < C → ((seatAt g i j).occupied ≠ 0 ↔ i * C + j < k)

/-- The data file holds exactly what `save_binary` writes for the state. -/
def Saved (st : State) : Prop :=
  st.file = some ⟨st.rows, st.cols, st.list.length, st.list⟩

/-! ## Further concrete inputs -/

/-- Dimensions 0 x 0 with a roster of one student. -/
def hallLessRoster : State := ⟨0, 0, none, [⟨1, "a", 0, 0⟩], none⟩

/-- A data file whose header declares three students and which holds one
complete record. -/
def truncatedFile : FileImage := ⟨2, 2, 3, [⟨1, "a", 0, 0⟩]⟩

/-- A data file whose header has `rows = 9999`. -/
def corruptFile : FileImage := ⟨9999, 2, 1, [⟨1, "a", 0, 0⟩]⟩

/-- Requests for the `n` rolls 1, ..., `n`. -/
def requestsUpTo (n : Nat) : List (Int × String) :=
  (List.range n).map (fun (i : Nat) => ((i : Int) + 1, "s"))

/-- Requests for the 501 rolls 1, ..., 501. -/
def manyRequests : List (Int × String) := requestsUpTo 501

/-- The state after resizing the empty state to 6 x 100 and allocating the
rolls 1, ..., 501. -/
def overfullState : State := allocateRun (resize State.empty 6 100) manyRequests


/-! # Theorems -/

/-! ## Loop lemmas -/

theorem scanLoop_eq_none {α : Type} (n : Nat) (f : Nat → Option α) :
    scanLoop n f = none ↔ ∀ i, i < n → f i = none := by
  induction n with
  | zero => simp [scanLoop]
  | succ k ih =>
    unfold scanLoop
    constructor
    · intro h i hi
      cases hk : scanLoop k f with
      | some a => rw [hk] at h; cases h
      | none =>
        rw [hk] at h
        rcases Nat.lt_succ_iff_lt_or_eq.mp hi with h1 | h1
        · exact (ih.mp hk) i h1
        · subst h1; exact h
    · intro h
      have hk : scanLoop k f = none := ih.mpr (fun i hi => h i (Nat.lt_succ_of_lt hi))
      rw [hk]
      exact h k (Nat.lt_succ_self k)

theorem scanLoop_eq_some {α : Type} (n : Nat) (f : Nat → Option α) (a : α) :
    scanLoop n f = some a ↔ ∃ i, i < n ∧ f i = some a ∧ ∀ k, k < i → f k = none := by
  induction n generalizing a with
  | zero => simp [scanLoop]
  | succ k ih =>
    unfold scanLoop
    cases hk : scanLoop k f with
    | some b =>
      constructor
      · intro h
        obtain ⟨i, hi, hfi, hlt⟩ := (ih b).mp hk
        cases h
        exact ⟨i, Nat.lt_succ_of_lt hi, hfi, hlt⟩
      · rintro ⟨i, hi, hfi, hlt⟩
        obtain ⟨i2, hi2, hfi2, hlt2⟩ := (ih b).mp hk
        rcases Nat.lt_trichotomy i i2 with h1 | h1 | h1
        · rw [hlt2 i h1] at hfi; cases hfi
        · subst h1; rw [hfi2] at hfi; exact hfi
        · rw [hlt i2 h1] at hfi2; cases hfi2
    | none =>
      have hnone := (scanLoop_eq_none k f).mp hk
      constructor
      · intro h
        exact ⟨k, Nat.lt_succ_self k, h, hnone⟩
      · rintro ⟨i, hi, hfi, _⟩
        rcases Nat.lt_succ_iff_lt_or_eq.mp hi with h1 | h1
        · rw [hnone i h1] at hfi; cases hfi
        · subst h1; exact hfi

/-! ## Seat access lemmas -/


theorem shaped_replicate (n m : Nat) (s : Seat) :
    Shaped (List.replicate n (List.replicate m s)) n m := by
  refine ⟨by simp, ?_⟩
  intro row hrow
  rw [List.eq_of_mem_replicate hrow]
  simp

theorem seatAt_replicate (n m : Nat) (i j : Nat) :
    seatAt (List.replicate n (List.replicate m (⟨0, 0⟩ : Seat))) i j = ⟨0, 0⟩ := by
  unfold seatAt
  by_cases hi : i < n
  · by_cases hj : j < m
    · simp [List.getD_eq_getElem?_getD, List.getElem?_replicate, hi, hj]
    · simp [List.getD_eq_getElem?_getD, List.getElem?_replicate, hi, hj]
      rfl
  · simp [List.getD_eq_getElem?_getD, List.getElem?_replicate, hi]
    rfl

theorem shaped_row_length {g : Hall} {n m : Nat} (h : Shaped g n m) {i : Nat} (hi : i < n) :
    (g.getD i []).length = m := by
  have hlen : i < g.length := by rw [h.1]; exact hi
  have : g.getD i [] = g[i] := by
    simp [List.getD_eq_getElem?_getD, List.getElem?_eq_getElem hlen]
  rw [this]
  exact h.2 _ (List.getElem_mem hlen)

theorem shaped_setSeat {g : Hall} {n m : Nat} (h : Shaped g n m) (i j : Nat) (s : Seat) :
    Shaped (setSeat g i j s) n m := by
  unfold setSeat
  refine ⟨by simp [h.1], ?_⟩
  intro row hrow
  by_cases hi : i < n
  · rcases List.mem_or_eq_of_mem_set hrow with h1 | h1
    · exact h.2 row h1
    · subst h1
      rw [List.length_set]
      exact shaped_row_length h hi
  · rw [List.set_eq_of_length_le (by rw [h.1]; omega)] at hrow
    exact h.2 row hrow

theorem seatAt_setSeat_same {g : Hall} {n m : Nat} (h : Shaped g n m) {i j : Nat}
    (hi : i < n) (hj : j < m) (s : Seat) : seatAt (setSeat g i j s) i j = s := by
  have hlen : i < g.length := by rw [h.1]; exact hi
  have hrow : g[i].length = m := h.2 _ (List.getElem_mem hlen)
  unfold seatAt setSeat
  simp [List.getD_eq_getElem?_getD, List.getElem?_set, hlen, hrow, hj]

theorem seatAt_setSeat_other (g : Hall) (i j i2 j2 : Nat) (s : Seat)
    (hne : i2 ≠ i ∨ j2 ≠ j) : seatAt (setSeat g i j s) i2 j2 = seatAt g i2 j2 := by
  unfold seatAt setSeat
  by_cases hi : i = i2
  · subst hi
    have hj : j ≠ j2 := by
      rcases hne with h1 | h1
      · exact absurd rfl h1
      · exact fun h => h1 h.symm
    by_cases hlen : i < g.length
    · simp [List.getD_eq_getElem?_getD, List.getElem?_set, hlen, hj]
    · simp [List.getD_eq_getElem?_getD, List.getElem?_set, hlen,
        List.getElem?_eq_none (not_lt.mp hlen)]
  · simp [List.getD_eq_getElem?_getD, List.getElem?_set, hi]

/-! ## The first-free scan -/

theorem scanRow_eq_some (m i : Nat) (p : Nat → Prop) [DecidablePred p] (r c : Nat) :
    scanLoop m (fun j => if p j then some (i, j) else none) = some (r, c) ↔
      r = i ∧ c < m ∧ p c ∧ ∀ k, k < c → ¬ p k := by
  rw [scanLoop_eq_some]
  constructor
  · rintro ⟨j, hj, hfj, hlt⟩
    by_cases hp : p j
    · rw [if_pos hp] at hfj
      cases hfj
      refine ⟨rfl, hj, hp, ?_⟩
      intro k hk hpk
      have := hlt k hk
      rw [if_pos hpk] at this
      cases this
    · rw [if_neg hp] at hfj
      cases hfj
  · rintro ⟨rfl, hc, hp, hlt⟩
    refine ⟨c, hc, by rw [if_pos hp], ?_⟩
    intro k hk
    rw [if_neg (hlt k hk)]

theorem scanRow_eq_none (m i : Nat) (p : Nat → Prop) [DecidablePred p] :
    scanLoop m (fun j => if p j then some (i, j) else none) = none ↔
      ∀ j, j < m → ¬ p j := by
  rw [scanLoop_eq_none]
  constructor
  · intro h j hj hp
    have := h j hj
    rw [if_pos hp] at this
    cases this
  · intro h j hj
    rw [if_neg (h j hj)]

theorem firstFree_eq_some (st : State) (r c : Nat) :
    firstFree st = some (r, c) ↔
      r < st.rows.toNat ∧ c < st.cols.toNat ∧ (st.seat r c).occupied = 0 ∧
      ∀ i j, i < st.rows.toNat → j < st.cols.toNat → (i < r ∨ (i = r ∧ j < c)) →
        (st.seat i j).occupied ≠ 0 := by
  unfold firstFree
  rw [scanLoop_eq_some]
  constructor
  · rintro ⟨i, hi, hfi, hlt⟩
    obtain ⟨rfl, hc, hp, hbefore⟩ :=
      (scanRow_eq_some st.cols.toNat i (fun j => (st.seat i j).occupied = 0) r c).mp hfi
    refine ⟨hi, hc, hp, ?_⟩
    intro i2 j2 hi2 hj2 hord
    rcases hord with h1 | ⟨h1, h2⟩
    · exact (scanRow_eq_none st.cols.toNat i2 (fun j => (st.seat i2 j).occupied = 0)).mp
        (hlt i2 h1) j2 hj2
    · subst h1
      exact hbefore j2 h2
  · rintro ⟨hr, hc, hp, hall⟩
    refine ⟨r, hr, ?_, ?_⟩
    · exact (scanRow_eq_some st.cols.toNat r (fun j => (st.seat r j).occupied = 0) r c).mpr
        ⟨rfl, hc, hp, fun k hk => hall r k hr (lt_trans hk hc) (Or.inr ⟨rfl, hk⟩)⟩
    · intro k hk
      exact (scanRow_eq_none st.cols.toNat k (fun j => (st.seat k j).occupied = 0)).mpr
        (fun j hj => hall k j (lt_trans hk hr) hj (Or.inl hk))

theorem firstFree_eq_none (st : State) :
    firstFree st = none ↔
      ∀ i j, i < st.rows.toNat → j < st.cols.toNat → (st.seat i j).occupied ≠ 0 := by
  unfold firstFree
  rw [scanLoop_eq_none]
  constructor
  · intro h i j hi hj
    exact (scanRow_eq_none st.cols.toNat i (fun j => (st.seat i j).occupied = 0)).mp (h i hi) j hj
  · intro h i hi
    exact (scanRow_eq_none st.cols.toNat i (fun j => (st.seat i j).occupied = 0)).mpr
      (fun j hj => h i j hi hj)

/-! ## The removal loop -/

theorem shift_getElem (l : List Student) (i k : Nat) (hk : i + k + 1 ≤ l.length) (j : Nat) :
    (forLoop k (fun k l1 => l1.set (i + k) (l1.getD (i + k + 1) default)) l)[j]? =
      if j < i then l[j]? else if j < i + k then l[j + 1]? else l[j]? := by
  induction k generalizing j with
  | zero =>
    simp only [forLoop, Nat.add_zero]
    by_cases h : j < i
    · rw [if_pos h]
    · rw [if_neg h, if_neg h]
  | succ n ih =>
    have ihn := ih (by omega)
    have hlen : ∀ (n : Nat), (forLoop n (fun k l1 => l1.set (i + k) (l1.getD (i + k + 1) default)) l).length
        = l.length := by
      intro n
      induction n with
      | zero => rfl
      | succ n ih2 => simp only [forLoop, List.length_set]; exact ih2
    simp only [forLoop]
    rw [List.getElem?_set]
    by_cases h1 : i + n = j
    · subst h1
      rw [if_pos rfl, hlen, if_pos (by omega), List.getD_eq_getElem?_getD, ihn (i + n + 1)]
      rw [if_neg (by omega), if_neg (by omega), if_neg (by omega), if_pos (by omega)]
      have hlt : i + n + 1 < l.length := by omega
      rw [List.getElem?_eq_getElem hlt]
      rfl
    · rw [if_neg h1, ihn j]
      by_cases h2 : j < i
      · rw [if_pos h2, if_pos h2]
      · rw [if_neg h2, if_neg h2]
        by_cases h3 : j < i + n
        · rw [if_pos h3, if_pos (by omega)]
        · rw [if_neg h3, if_neg (by omega)]

theorem shiftLeft_take (l : List Student) (i : Nat) (hi : i < l.length) :
    (shiftLeft l i).take (l.length - 1) = l.eraseIdx i := by
  apply List.ext_getElem?
  intro j
  unfold shiftLeft
  rw [List.getElem?_take, List.getElem?_eraseIdx,
    shift_getElem l i (l.length - 1 - i) (by omega) j]
  by_cases h1 : j < l.length - 1
  · rw [if_pos h1]
    by_cases h2 : j < i
    · rw [if_pos h2, if_pos h2]
    · rw [if_neg h2, if_neg h2, if_pos (by omega)]
  · rw [if_neg h1]
    by_cases h2 : j < i
    · omega
    · rw [if_neg h2]
      exact (List.getElem?_eq_none (by omega)).symm

theorem removeRoll_split (pre post : List Student) (s : Student) (roll : Int)
    (hs : s.roll = roll) (hpre : ∀ t, t ∈ pre → t.roll ≠ roll) :
    removeRoll (pre ++ s :: post) roll = pre ++ post := by
  unfold removeRoll
  have hscan : scanLoop (pre ++ s :: post).length
      (fun i => if ((pre ++ s :: post).getD i default).roll = roll then some i else none)
      = some pre.length := by
    rw [scanLoop_eq_some]
    refine ⟨pre.length, by simp, ?_, ?_⟩
    · have h0 : (pre ++ s :: post).getD pre.length default = s := by
        rw [List.getD_eq_getElem?_getD, List.getElem?_append_right (le_refl _)]
        simp
      show (if ((pre ++ s :: post).getD pre.length default).roll = roll then some pre.length
        else none) = some pre.length
      rw [h0, if_pos hs]
    · intro k hk
      have : ((pre ++ s :: post).getD k default) ∈ pre := by
        rw [List.getD_eq_getElem?_getD, List.getElem?_append_left hk,
          List.getElem?_eq_getElem hk]
        exact List.getElem_mem hk
      rw [if_neg (hpre _ this)]
  rw [hscan]
  show (shiftLeft (pre ++ s :: post) pre.length).take ((pre ++ s :: post).length - 1) = pre ++ post
  rw [shiftLeft_take _ _ (by simp)]
  rw [List.eraseIdx_append_of_length_le (le_refl _)]
  simp

theorem removeRoll_absent (l : List Student) (roll : Int)
    (h : ∀ t, t ∈ l → t.roll ≠ roll) : removeRoll l roll = l := by
  unfold removeRoll
  have hscan : scanLoop l.length
      (fun i => if (l.getD i default).roll = roll then some i else none) = none := by
    rw [scanLoop_eq_none]
    intro i hi
    have : (l.getD i default) ∈ l := by
      rw [List.getD_eq_getElem?_getD, List.getElem?_eq_getElem hi]
      exact List.getElem_mem hi
    rw [if_neg (h _ this)]
  rw [hscan]

/-! ## The rebuild loops -/

theorem clearRow_spec (g : Hall) (n m i : Nat) (hg : Shaped g n m) (hi : i < n) (k : Nat)
    (hk : k ≤ m) :
    Shaped (forLoop k (fun j g2 => setSeat g2 i j ⟨0, 0⟩) g) n m ∧
    ∀ i2 j2, seatAt (forLoop k (fun j g2 => setSeat g2 i j ⟨0, 0⟩) g) i2 j2 =
      if i2 = i ∧ j2 < k then ⟨0, 0⟩ else seatAt g i2 j2 := by
  induction k with
  | zero =>
    refine ⟨hg, ?_⟩
    intro i2 j2
    simp [forLoop]
  | succ k ih =>
    obtain ⟨hs, hseat⟩ := ih (by omega)
    simp only [forLoop]
    refine ⟨shaped_setSeat hs i k _, ?_⟩
    intro i2 j2
    by_cases h : i2 = i ∧ j2 = k
    · obtain ⟨rfl, rfl⟩ := h
      rw [seatAt_setSeat_same hs hi (by omega), if_pos ⟨rfl, Nat.lt_succ_self _⟩]
    · rw [seatAt_setSeat_other _ _ _ _ _ _ (by omega), hseat i2 j2]
      by_cases h2 : i2 = i ∧ j2 < k
      · rw [if_pos h2, if_pos ⟨h2.1, by omega⟩]
      · rw [if_neg h2, if_neg (by omega)]

theorem clearHall_spec (g : Hall) (n m : Nat) (hg : Shaped g n m) (k : Nat) (hk : k ≤ n) :
    Shaped (forLoop k (fun i g1 => forLoop m (fun j g2 => setSeat g2 i j ⟨0, 0⟩) g1) g) n m ∧
    ∀ i2 j2, j2 < m →
      seatAt (forLoop k (fun i g1 => forLoop m (fun j g2 => setSeat g2 i j ⟨0, 0⟩) g1) g) i2 j2 =
        if i2 < k then ⟨0, 0⟩ else seatAt g i2 j2 := by
  induction k with
  | zero =>
    refine ⟨hg, ?_⟩
    intro i2 j2 _
    simp [forLoop]
  | succ k ih =>
    obtain ⟨hs, hseat⟩ := ih (by omega)
    simp only [forLoop]
    obtain ⟨hs2, hseat2⟩ := clearRow_spec _ n m k hs (by omega) m (le_refl m)
    refine ⟨hs2, ?_⟩
    intro i2 j2 hj2
    rw [hseat2 i2 j2]
    by_cases h : i2 = k
    · subst h
      rw [if_pos ⟨rfl, hj2⟩, if_pos (Nat.lt_succ_self _)]
    · rw [if_neg (by omega), hseat i2 j2 hj2]
      by_cases h2 : i2 < k
      · rw [if_pos h2, if_pos (by omega)]
      · rw [if_neg h2, if_neg (by omega)]

theorem clearHall_shaped (g : Hall) (n m : Nat) (hg : Shaped g n m) :
    Shaped (clearHall n m g) n m :=
  (clearHall_spec g n m hg n (le_refl n)).1

theorem clearHall_seat (g : Hall) (n m : Nat) (hg : Shaped g n m) (i j : Nat)
    (hi : i < n) (hj : j < m) : seatAt (clearHall n m g) i j = ⟨0, 0⟩ := by
  unfold clearHall
  rw [(clearHall_spec g n m hg n (le_refl n)).2 i j hj, if_pos hi]

theorem placeStudent_shaped (rows cols : Int) (g : Hall) (n m : Nat) (hg : Shaped g n m)
    (s : Student) : Shaped (placeStudent rows cols g s) n m := by
  unfold placeStudent
  split
  · exact shaped_setSeat hg _ _ _
  · exact hg

theorem placeStudent_seat (rows cols : Int) (g : Hall)
    (hg : Shaped g rows.toNat cols.toNat) (s : Student) (i j : Nat)
    (hi : i < rows.toNat) (hj : j < cols.toNat) :
    seatAt (placeStudent rows cols g s) i j =
      if s.isAt i j then ⟨1, s.roll⟩ else seatAt g i j := by
  unfold placeStudent Student.isAt
  by_cases hb : 0 ≤ s.row ∧ s.row < rows ∧ 0 ≤ s.col ∧ s.col < cols
  · rw [if_pos hb]
    by_cases hat : s.row = (i : Int) ∧ s.col = (j : Int)
    · rw [if_pos hat]
      have h1 : s.row.toNat = i := by omega
      have h2 : s.col.toNat = j := by omega
      rw [h1, h2]
      exact seatAt_setSeat_same hg hi hj _
    · rw [if_neg hat]
      apply seatAt_setSeat_other
      omega
  · rw [if_neg hb]
    have hat : ¬ (s.row = (i : Int) ∧ s.col = (j : Int)) := by omega
    rw [if_neg hat]

theorem lastAt_append_single (l : List Student) (s : Student) (i j : Nat) :
    lastAt (l ++ [s]) i j = if s.isAt i j then some s else lastAt l i j := by
  unfold lastAt
  rw [List.reverse_append]
  simp only [List.reverse_cons, List.reverse_nil, List.nil_append, List.singleton_append]
  by_cases h : s.isAt i j
  · rw [if_pos h, List.find?_cons_of_pos _ (by simpa using h)]
  · rw [if_neg h, List.find?_cons_of_neg _ (by simpa using h)]

theorem rebuild_fold_spec (rows cols : Int) (l : List Student) (g : Hall)
    (hg : Shaped g rows.toNat cols.toNat) :
    Shaped (l.foldl (placeStudent rows cols) g) rows.toNat cols.toNat ∧
    ∀ i j, i < rows.toNat → j < cols.toNat →
      seatAt (l.foldl (placeStudent rows cols) g) i j =
        match lastAt l i j with
        | some s => ⟨1, s.roll⟩
        | none => seatAt g i j := by
  induction l using List.reverseRecOn with
  | nil =>
    refine ⟨hg, ?_⟩
    intro i j _ _
    simp [lastAt]
  | append_singleton l s ih =>
    obtain ⟨hs, hseat⟩ := ih
    rw [List.foldl_append]
    simp only [List.foldl_cons, List.foldl_nil]
    refine ⟨placeStudent_shaped _ _ _ _ _ hs s, ?_⟩
    intro i j hi hj
    rw [placeStudent_seat rows cols _ hs s i j hi hj, lastAt_append_single]
    by_cases h : s.isAt i j
    · rw [if_pos h, if_pos h]
    · rw [if_neg h, if_neg h]
      exact hseat i j hi hj

/-! ## Case analysis of the operations -/

theorem ensure_noop (st : State) (h : st.rows ≤ 0 ∨ st.cols ≤ 0 ∨ st.hall.isSome) :
    ensure_hall_allocated st = st := by
  unfold ensure_hall_allocated
  by_cases h1 : st.rows ≤ 0 ∨ st.cols ≤ 0
  · rw [if_pos h1]
  · rw [if_neg h1]
    have h2 : st.hall.isSome = true := by
      rcases h with h | h | h
      · exact absurd (Or.inl h) h1
      · exact absurd (Or.inr h) h1
      · exact h
    rw [if_pos h2]

theorem ensure_fresh (st : State) (hh : st.hall = none) (hr : 0 < st.rows) (hc : 0 < st.cols)
    (hr2 : st.rows ≤ MAX_ROWS) (hc2 : st.cols ≤ MAX_COLS) :
    ensure_hall_allocated st =
      { st with hall := some (List.replicate st.rows.toNat (List.replicate st.cols.toNat ⟨0, 0⟩)) } := by
  unfold ensure_hall_allocated
  rw [if_neg (by omega), if_neg (by simp [hh]), if_neg (by omega)]

theorem ensure_reset (st : State) (hh : st.hall = none) (hr : 0 < st.rows) (hc : 0 < st.cols)
    (hbig : st.rows > MAX_ROWS ∨ st.cols > MAX_COLS) :
    ensure_hall_allocated st = ⟨0, 0, none, [], none⟩ := by
  unfold ensure_hall_allocated
  rw [if_neg (by omega), if_neg (by simp [hh]), if_pos hbig]
  rfl

theorem find_student_eq_none (st : State) (roll : Int) :
    find_student st roll = none ↔ ∀ s, s ∈ st.list → s.roll ≠ roll := by
  unfold find_student
  simp

theorem find_student_split (st : State) (roll : Int) (pre post : List Student) (s : Student)
    (hl : st.list = pre ++ s :: post) (hs : s.roll = roll)
    (hpre : ∀ t, t ∈ pre → t.roll ≠ roll) : find_student st roll = some s := by
  unfold find_student
  rw [hl, List.find?_append]
  have h1 : pre.find? (fun s => decide (s.roll = roll)) = none := by
    rw [List.find?_eq_none]
    intro t ht
    simpa using hpre t ht
  rw [h1, List.find?_cons_of_pos _ (by simpa using hs)]
  rfl

theorem find_student_some (st : State) (roll : Int) (s : Student)
    (h : find_student st roll = some s) :
    ∃ pre post, st.list = pre ++ s :: post ∧ s.roll = roll ∧ ∀ t, t ∈ pre → t.roll ≠ roll := by
  unfold find_student at h
  obtain ⟨hp, pre, post, hl, hpre⟩ := List.find?_eq_some.mp h
  refine ⟨pre, post, hl, by simpa using hp, ?_⟩
  intro t ht
  simpa using hpre t ht

theorem allocate_random_eq (st : State) (roll : Int) (name : String) :
    allocate_random st roll name =
      if st.rows = 0 ∨ st.cols = 0 then (st, Msg.noHallConfigured)
      else if (find_student (allocPrep st) roll).isSome then (allocPrep st, Msg.duplicateRoll roll)
      else
        match firstFree (allocPrep st) with
        | some (i, j) =>
          (save_binary { allocPrep st with
              list := (allocPrep st).list ++ [⟨roll, storedName name i j, i, j⟩]
              hall := (allocPrep st).hall.map (fun g => setSeat g i j ⟨1, roll⟩) },
            Msg.allocated name roll i j)
        | none => (allocPrep st, Msg.hallFull) := rfl

theorem allocate_cases (st : State) (roll : Int) (name : String) :
    ((st.rows = 0 ∨ st.cols = 0) ∧ allocate_random st roll name = (st, Msg.noHallConfigured)) ∨
    (st.rows ≠ 0 ∧ st.cols ≠ 0 ∧ (∃ s, find_student (allocPrep st) roll = some s) ∧
      allocate_random st roll name = (allocPrep st, Msg.duplicateRoll roll)) ∨
    (st.rows ≠ 0 ∧ st.cols ≠ 0 ∧ find_student (allocPrep st) roll = none ∧
      firstFree (allocPrep st) = none ∧
      allocate_random st roll name = (allocPrep st, Msg.hallFull)) ∨
    (st.rows ≠ 0 ∧ st.cols ≠ 0 ∧ find_student (allocPrep st) roll = none ∧
      ∃ i j, firstFree (allocPrep st) = some (i, j) ∧
      allocate_random st roll name =
        (save_binary { allocPrep st with
            list := (allocPrep st).list ++ [⟨roll, storedName name i j, i, j⟩]
            hall := (allocPrep st).hall.map (fun g => setSeat g i j ⟨1, roll⟩) },
          Msg.allocated name roll i j)) := by
  rw [allocate_random_eq]
  by_cases h0 : st.rows = 0 ∨ st.cols = 0
  · left
    exact ⟨h0, by rw [if_pos h0]⟩
  · right
    have hr : st.rows ≠ 0 := fun h => h0 (Or.inl h)
    have hc : st.cols ≠ 0 := fun h => h0 (Or.inr h)
    rw [if_neg h0]
    cases hf : find_student (allocPrep st) roll with
    | some s =>
      left
      exact ⟨hr, hc, ⟨s, rfl⟩, by simp⟩
    | none =>
      right
      simp only [Option.isSome_none, Bool.false_eq_true, if_false]
      cases hs : firstFree (allocPrep st) with
      | none =>
        left
        exact ⟨hr, hc, trivial, rfl, rfl⟩
      | some p =>
        right
        obtain ⟨i, j⟩ := p
        exact ⟨hr, hc, trivial, i, j, rfl, rfl⟩

theorem deallocate_cases (st : State) (roll : Int) :
    (find_student st roll = none ∧ deallocate_seat st roll = (st, Msg.rollNotFound)) ∨
    (∃ s, find_student st roll = some s ∧
      deallocate_seat st roll =
        (save_binary { st with hall := clearedHall st s.row s.col,
                               list := removeRoll st.list roll },
          Msg.deallocated roll s.row s.col)) := by
  unfold deallocate_seat
  cases hf : find_student st roll with
  | none => left; exact ⟨rfl, rfl⟩
  | some s => right; exact ⟨s, rfl, rfl⟩

theorem allocPrep_of_grid (st : State) (h : st.rows ≤ 0 ∨ st.cols ≤ 0 ∨ st.hall.isSome) :
    allocPrep st = st := by
  unfold allocPrep
  split
  · exact ensure_noop st h
  · rfl

theorem state_seat_of_hall (st : State) (g : Hall) (h : st.hall = some g) (i j : Nat) :
    st.seat i j = seatAt g i j := by
  unfold State.seat
  rw [h]

/-! ## Allocation -/

theorem allocPrep_reads (st : State) (hr : 0 < st.rows) (hc : 0 < st.cols)
    (hgrid : st.hall.isSome ∨ (st.rows ≤ MAX_ROWS ∧ st.cols ≤ MAX_COLS)) :
    (allocPrep st).rows = st.rows ∧ (allocPrep st).cols = st.cols ∧
    (allocPrep st).list = st.list ∧ ∀ i j, (allocPrep st).seat i j = st.seat i j := by
  cases hh : st.hall with
  | some g =>
    rw [allocPrep_of_grid st (by simp [hh])]
    exact ⟨rfl, rfl, rfl, fun _ _ => rfl⟩
  | none =>
    have hp : allocPrep st = ensure_hall_allocated st := by
      unfold allocPrep; rw [if_pos (by simp [hh])]
    rw [hp]
    rcases hgrid with h | h
    · rw [hh] at h; cases h
    · rw [ensure_fresh st hh hr hc h.1 h.2]
      refine ⟨rfl, rfl, rfl, ?_⟩
      intro i j
      unfold State.seat
      simp only [hh]
      rw [seatAt_replicate]
      rfl

/-- C2 (as stated) fails: with `rows = 101`, `cols = 1` and no grid, allocating
roll 8 (not in the roster) runs the reset of `ensure_hall_allocated` and reports
a full hall although no seat is occupied. -/
theorem allocate_first_fit_counterexample :
    0 < oversizedState.rows ∧ 0 < oversizedState.cols ∧
    (∀ s, s ∈ oversizedState.list → s.roll ≠ 8) ∧
    (allocate_random oversizedState 8 "b").2 = Msg.hallFull ∧
    (oversizedState.seat 0 0).occupied = 0 ∧
    ¬ ((allocate_random oversizedState 8 "b").2 = Msg.hallFull ↔
      ∀ i j, i < oversizedState.rows.toNat → j < oversizedState.cols.toNat →
        (oversizedState.seat i j).occupied ≠ 0) := by
  refine ⟨by decide, by decide, by decide, by decide, by decide, ?_⟩
  intro h
  exact h.mp (by decide) 0 0 (by decide) (by decide) (by decide)

/-- C2 (amended): in a state with `rows > 0` and `cols > 0` whose grid exists or
whose dimensions are both within `MAX_ROWS` x `MAX_COLS` (a state that has no
grid yet has every seat free), for a roll that is not in the roster,
`allocate_random` reports seat `(r, c)` exactly when `(r, c)` is the first free
seat in row-major order, and reports a full hall exactly when every seat is
occupied. -/
theorem allocate_first_fit (st : State) (roll : Int) (name : String)
    (hr : 0 < st.rows) (hc : 0 < st.cols)
    (hgrid : st.hall.isSome ∨ (st.rows ≤ MAX_ROWS ∧ st.cols ≤ MAX_COLS))
    (hroll : ∀ s, s ∈ st.list → s.roll ≠ roll) :
    (∀ r c : Nat, (allocate_random st roll name).2 = Msg.allocated name roll r c ↔
      (r < st.rows.toNat ∧ c < st.cols.toNat ∧ (st.seat r c).occupied = 0 ∧
        ∀ i j, i < st.rows.toNat → j < st.cols.toNat → (i < r ∨ (i = r ∧ j < c)) →
          (st.seat i j).occupied ≠ 0)) ∧
    ((allocate_random st roll name).2 = Msg.hallFull ↔
      ∀ i j, i < st.rows.toNat → j < st.cols.toNat → (st.seat i j).occupied ≠ 0) := by
  obtain ⟨pr, pc, pl, ps⟩ := allocPrep_reads st hr hc hgrid
  have hnone : find_student (allocPrep st) roll = none :=
    (find_student_eq_none _ roll).mpr (by rw [pl]; exact hroll)
  have hsome := firstFree_eq_some (allocPrep st)
  have hfull := firstFree_eq_none (allocPrep st)
  simp only [pr, pc, ps] at hsome hfull
  rcases allocate_cases st roll name with ⟨h0, _⟩ | ⟨_, _, ⟨s, hs⟩, _⟩ | ⟨_, _, _, hff, heq⟩ |
    ⟨_, _, _, i, j, hff, heq⟩
  · omega
  · rw [hnone] at hs
    cases hs
  · rw [heq]
    constructor
    · intro r c
      constructor
      · intro h; cases h
      · intro h
        rw [(hsome r c).mpr h] at hff
        cases hff
    · constructor
      · intro _
        exact hfull.mp hff
      · intro _; rfl
  · rw [heq]
    constructor
    · intro r c
      constructor
      · intro h
        injection h with _ _ h1 h2
        subst h1 h2
        exact (hsome i j).mp hff
      · intro h
        rw [(hsome r c).mpr h] at hff
        injection hff with hff
        injection hff with h1 h2
        subst h1 h2
        rfl
    · constructor
      · intro h; cases h
      · intro h
        rw [hfull.mpr h] at hff
        cases hff

/-- C3 (as stated) fails: in `threeSeated` the allocation of roll 9 with a name
of 52 bytes succeeds at seat `(1, 1)`, but the appended roster entry does not
hold the given name: the terminator written by `strcpy` falls on `row`, and the
name field reads back as the 52 bytes followed by the byte 1 of `row`. -/
theorem allocate_effect_counterexample :
    (allocate_random threeSeated 9 longName).2 = Msg.allocated longName 9 1 1 ∧
    (allocate_random threeSeated 9 longName).1.list =
      threeSeated.list ++ [⟨9, longName ++ String.singleton (Char.ofNat 1), 1, 1⟩] ∧
    (allocate_random threeSeated 9 longName).1.list ≠
      threeSeated.list ++ [⟨9, longName, 1, 1⟩] := by
  decide

/-- C3 (amended): in a state whose grid, when present, has `rows` rows of `cols`
seats, a successful `allocate_random roll name` with a name of at most 49 bytes
(one that fits the 50-byte name field with its terminator) that reports seat
`(r, c)` appends the single student `{roll, name, r, c}` to the end of the
roster, makes seat `(r, c)` `{occupied = 1, roll}`, leaves every other seat as
it was (a state that had no grid yet gets a grid of the same dimensions whose
other seats are free), and leaves `rows` and `cols` unchanged. -/
theorem allocate_effect (st : State) (roll : Int) (name : String) (r c : Nat)
    (hshape : ∀ g, st.hall = some g → Shaped g st.rows.toNat st.cols.toNat)
    (hname : name.utf8ByteSize ≤ 49)
    (hok : (allocate_random st roll name).2 = Msg.allocated name roll r c) :
    (allocate_random st roll name).1.list = st.list ++ [⟨roll, name, r, c⟩] ∧
    (allocate_random st roll name).1.rows = st.rows ∧
    (allocate_random st roll name).1.cols = st.cols ∧
    (∃ g2, (allocate_random st roll name).1.hall = some g2 ∧
      Shaped g2 st.rows.toNat st.cols.toNat) ∧
    (allocate_random st roll name).1.seat r c = ⟨1, roll⟩ ∧
    (∀ i j, (i ≠ r ∨ j ≠ c) → (allocate_random st roll name).1.seat i j = st.seat i j) := by
  rcases allocate_cases st roll name with ⟨_, heq⟩ | ⟨_, _, _, heq⟩ | ⟨_, _, _, _, heq⟩ |
    ⟨hr, hc, _, i, j, hff, heq⟩
  · rw [heq] at hok; cases hok
  · rw [heq] at hok; cases hok
  · rw [heq] at hok; cases hok
  · rw [heq] at hok ⊢
    injection hok with _ _ h1 h2
    subst h1 h2
    obtain ⟨hi, hj, _, _⟩ := (firstFree_eq_some _ _ _).mp hff
    -- the prepared state: same roster and dimensions, a shaped grid reading like the old one
    have hprep : (allocPrep st).list = st.list ∧ (allocPrep st).rows = st.rows ∧
        (allocPrep st).cols = st.cols ∧
        ∃ g1, (allocPrep st).hall = some g1 ∧ Shaped g1 st.rows.toNat st.cols.toNat ∧
          ∀ a b, seatAt g1 a b = st.seat a b := by
      cases hh : st.hall with
      | some g =>
        rw [allocPrep_of_grid st (by simp [hh])]
        exact ⟨rfl, rfl, rfl, g, hh, hshape g hh, fun a b => (state_seat_of_hall st g hh a b).symm⟩
      | none =>
        have hp : allocPrep st = ensure_hall_allocated st := by
          unfold allocPrep; rw [if_pos (by simp [hh])]
        rw [hp] at hi hj ⊢
        by_cases hpos : 0 < st.rows ∧ 0 < st.cols
        · by_cases hbig : st.rows > MAX_ROWS ∨ st.cols > MAX_COLS
          · rw [ensure_reset st hh hpos.1 hpos.2 hbig] at hi
            simp at hi
          · rw [ensure_fresh st hh hpos.1 hpos.2 (by omega) (by omega)]
            refine ⟨rfl, rfl, rfl, _, rfl, shaped_replicate _ _ _, ?_⟩
            intro a b
            rw [seatAt_replicate]
            unfold State.seat
            rw [hh]
            rfl
        · rw [ensure_noop st (by omega)] at hi hj
          omega
    obtain ⟨hl, hrw, hcl, g1, hg1, hs1, hread⟩ := hprep
    rw [hrw] at hi
    rw [hcl] at hj
    refine ⟨?_, hrw, hcl, ?_, ?_, ?_⟩
    · show (allocPrep st).list ++ [(⟨roll, storedName name i j, i, j⟩ : Student)] = _
      rw [hl]
      unfold storedName
      rw [if_pos hname]
    · refine ⟨setSeat g1 i j ⟨1, roll⟩, ?_, shaped_setSeat hs1 _ _ _⟩
      show Option.map _ (allocPrep st).hall = _
      rw [hg1]
      rfl
    · show State.seat ⟨_, _, Option.map _ (allocPrep st).hall, _, _⟩ i j = _
      unfold State.seat
      simp only [hg1, Option.map_some']
      exact seatAt_setSeat_same hs1 hi hj _
    · intro a b hne
      show State.seat ⟨_, _, Option.map _ (allocPrep st).hall, _, _⟩ a b = _
      unfold State.seat
      simp only [hg1, Option.map_some']
      rw [seatAt_setSeat_other _ _ _ _ _ _ hne]
      have := hread a b
      unfold State.seat at this
      exact this

/-- C4 (as stated) fails: with `rows = 101`, `cols = 1`, no grid and roll 7 in
the roster, `allocate_random 7` runs the reset of `ensure_hall_allocated` and
then reports a full hall; the roster is empty afterwards. -/
theorem allocate_duplicate_counterexample :
    0 < oversizedState.rows ∧ 0 < oversizedState.cols ∧
    (∃ s, s ∈ oversizedState.list ∧ s.roll = 7) ∧
    (allocate_random oversizedState 7 "b").2 = Msg.hallFull ∧
    (allocate_random oversizedState 7 "b").2 ≠ Msg.duplicateRoll 7 ∧
    (allocate_random oversizedState 7 "b").1.list = [] := by
  decide

/-- C4 (amended): with `rows > 0`, `cols > 0`, and the grid present or both
dimensions within `MAX_ROWS` x `MAX_COLS`, allocating a roll that the roster
already contains reports `duplicateRoll`, whether or not a seat is free; the
roster is unchanged, so a roster with unique rolls still has exactly one entry
with that roll. -/
theorem allocate_duplicate (st : State) (roll : Int) (name : String)
    (hr : 0 < st.rows) (hc : 0 < st.cols)
    (hgrid : st.hall.isSome ∨ (st.rows ≤ MAX_ROWS ∧ st.cols ≤ MAX_COLS))
    (hx : ∃ s, s ∈ st.list ∧ s.roll = roll) :
    (allocate_random st roll name).2 = Msg.duplicateRoll roll ∧
    (allocate_random st roll name).1.list = st.list ∧
    ((st.list.map Student.roll).Nodup →
      ((allocate_random st roll name).1.list.filter (fun s => decide (s.roll = roll))).length = 1) := by
  have hl : (allocPrep st).list = st.list := by
    cases hh : st.hall with
    | some g => rw [allocPrep_of_grid st (by simp [hh])]
    | none =>
      have hp : allocPrep st = ensure_hall_allocated st := by
        unfold allocPrep; rw [if_pos (by simp [hh])]
      rw [hp]
      rcases hgrid with h | h
      · rw [hh] at h; cases h
      · rw [ensure_fresh st hh hr hc h.1 h.2]
  have hfound : find_student (allocPrep st) roll ≠ none := by
    intro h
    obtain ⟨s, hs, hsr⟩ := hx
    rw [find_student_eq_none, hl] at h
    exact h s hs hsr
  have hres : allocate_random st roll name = (allocPrep st, Msg.duplicateRoll roll) := by
    rcases allocate_cases st roll name with ⟨h0, _⟩ | ⟨_, _, _, heq⟩ | ⟨_, _, hf, _, _⟩ |
      ⟨_, _, hf, _⟩
    · omega
    · exact heq
    · exact absurd hf hfound
    · exact absurd hf hfound
  rw [hres]
  refine ⟨rfl, hl, ?_⟩
  intro hnd
  show ((allocPrep st).list.filter _).length = 1
  rw [hl]
  obtain ⟨s, hs, hsr⟩ := hx
  subst hsr
  have hcount : (st.list.map Student.roll).count s.roll = 1 :=
    List.count_eq_one_of_mem hnd (List.mem_map_of_mem _ hs)
  rw [List.count_eq_countP, List.countP_map, List.countP_eq_length_filter] at hcount
  rw [← hcount]
  congr 1

/-- C5 (as stated) fails: with `rows = cols = 2`, no grid yet and roll 7 in the
roster, `allocate_random 7` reports `duplicateRoll` but has created the grid. -/
theorem failed_allocate_counterexample :
    (allocate_random gridlessState 7 "b").2 = Msg.duplicateRoll 7 ∧
    gridlessState.hall = none ∧
    (allocate_random gridlessState 7 "b").1.hall = some [[⟨0, 0⟩, ⟨0, 0⟩], [⟨0, 0⟩, ⟨0, 0⟩]] ∧
    (allocate_random gridlessState 7 "b").1 ≠ gridlessState := by
  decide

/-- C5 (amended): a call of `allocate_random` that reports `noHallConfigured`
and a call of `deallocate_seat` that reports `rollNotFound` return the state they
were given; a call of `allocate_random` that reports `duplicateRoll` or
`hallFull` returns the state left by its call of `ensure_hall_allocated`, which
is the state it was given whenever the grid already exists or a dimension is not
positive. -/
theorem failed_call_keeps_state (st : State) (roll : Int) (name : String) :
    ((allocate_random st roll name).2 = Msg.noHallConfigured →
      (allocate_random st roll name).1 = st) ∧
    (((allocate_random st roll name).2 = Msg.duplicateRoll roll ∨
      (allocate_random st roll name).2 = Msg.hallFull) →
        (allocate_random st roll name).1 =
          if st.hall.isNone then ensure_hall_allocated st else st) ∧
    ((st.rows ≤ 0 ∨ st.cols ≤ 0 ∨ st.hall.isSome) →
      ((allocate_random st roll name).2 = Msg.duplicateRoll roll ∨
        (allocate_random st roll name).2 = Msg.hallFull) →
        (allocate_random st roll name).1 = st) ∧
    ((deallocate_seat st roll).2 = Msg.rollNotFound → (deallocate_seat st roll).1 = st) := by
  have hcases := allocate_cases st roll name
  refine ⟨?_, ?_, ?_, ?_⟩
  · intro hfail
    rcases hcases with ⟨_, heq⟩ | ⟨_, _, _, heq⟩ | ⟨_, _, _, _, heq⟩ | ⟨_, _, _, i, j, _, heq⟩
    · rw [heq]
    · rw [heq] at hfail; cases hfail
    · rw [heq] at hfail; cases hfail
    · rw [heq] at hfail; cases hfail
  · intro hfail
    rcases hcases with ⟨_, heq⟩ | ⟨_, _, _, heq⟩ | ⟨_, _, _, _, heq⟩ | ⟨_, _, _, i, j, _, heq⟩
    · rw [heq] at hfail
      rcases hfail with h | h <;> cases h
    · rw [heq]; rfl
    · rw [heq]; rfl
    · rw [heq] at hfail
      rcases hfail with h | h <;> cases h
  · intro hgrid hfail
    have hprep := allocPrep_of_grid st hgrid
    rcases hcases with ⟨_, heq⟩ | ⟨_, _, _, heq⟩ | ⟨_, _, _, _, heq⟩ | ⟨_, _, _, i, j, _, heq⟩
    · rw [heq]
    · rw [heq, hprep]
    · rw [heq, hprep]
    · rw [heq] at hfail
      rcases hfail with h | h <;> cases h
  · intro hfail
    rcases deallocate_cases st roll with ⟨_, heq⟩ | ⟨s, _, heq⟩
    · rw [heq]
    · rw [heq] at hfail
      cases hfail

/-! ## Deallocation -/

theorem deallocate_split (st : State) (roll : Int) (pre post : List Student) (s : Student)
    (hl : st.list = pre ++ s :: post) (hs : s.roll = roll)
    (hpre : ∀ t, t ∈ pre → t.roll ≠ roll) :
    deallocate_seat st roll =
      (save_binary { st with hall := clearedHall st s.row s.col, list := pre ++ post },
        Msg.deallocated roll s.row s.col) := by
  have hf := find_student_split st roll pre post s hl hs hpre
  rcases deallocate_cases st roll with ⟨hf2, _⟩ | ⟨s2, hf2, heq⟩
  · rw [hf] at hf2; cases hf2
  · rw [hf] at hf2
    cases hf2
    rw [heq]
    have hrem : removeRoll st.list roll = pre ++ post := by
      rw [hl]
      exact removeRoll_split pre post s roll hs hpre
    rw [hrem]

/-- C6: `deallocate_seat st roll` reports `rollNotFound` exactly when no roster
entry has that roll; otherwise it reports the row and column stored in the first
roster entry with that roll, whatever the grid bounds are. -/
theorem deallocate_result (st : State) (roll : Int) :
    ((deallocate_seat st roll).2 = Msg.rollNotFound ↔ ∀ s, s ∈ st.list → s.roll ≠ roll) ∧
    (∀ pre s post, st.list = pre ++ s :: post → s.roll = roll →
      (∀ t, t ∈ pre → t.roll ≠ roll) →
      (deallocate_seat st roll).2 = Msg.deallocated roll s.row s.col) := by
  constructor
  · rcases deallocate_cases st roll with ⟨hf, heq⟩ | ⟨s, hf, heq⟩
    · rw [heq]
      exact ⟨fun _ => (find_student_eq_none st roll).mp hf, fun _ => rfl⟩
    · rw [heq]
      constructor
      · intro h; cases h
      · intro h
        rw [(find_student_eq_none st roll).mpr h] at hf
        cases hf
  · intro pre s post hl hs hpre
    rw [deallocate_split st roll pre post s hl hs hpre]

/-- C7: a successful `deallocate_seat st roll` removes exactly the first roster
entry whose roll matches: the roster `pre ++ s :: post` (no match in `pre`)
becomes `pre ++ post`, one entry shorter, the survivors in their old order. -/
theorem deallocate_roster (st : State) (roll : Int) (r c : Int)
    (hok : (deallocate_seat st roll).2 = Msg.deallocated roll r c) :
    ∃ pre s post, st.list = pre ++ s :: post ∧ s.roll = roll ∧
      (∀ t, t ∈ pre → t.roll ≠ roll) ∧
      (deallocate_seat st roll).1.list = pre ++ post ∧
      (deallocate_seat st roll).1.list.length + 1 = st.list.length := by
  rcases deallocate_cases st roll with ⟨_, heq⟩ | ⟨s, hf, _⟩
  · rw [heq] at hok; cases hok
  · obtain ⟨pre, post, hl, hs, hpre⟩ := find_student_some st roll s hf
    refine ⟨pre, s, post, hl, hs, hpre, ?_⟩
    rw [deallocate_split st roll pre post s hl hs hpre]
    constructor
    · rfl
    · show (pre ++ post).length + 1 = _
      rw [hl]
      simp
      omega

/-- C8: in a state whose grid, when present, has `rows` rows of `cols` seats,
for a successful `deallocate_seat` of a student stored at `(r, c)`: when
`(r, c)` is inside the grid bounds, seat `(r, c)` reads `{occupied = 0, roll = 0}`
afterwards and every other seat is unchanged; when `(r, c)` is outside the
bounds, the grid is unchanged. The grid keeps its shape in both cases. -/
theorem deallocate_grid (st : State) (roll : Int) (r c : Int)
    (hshape : ∀ g, st.hall = some g → Shaped g st.rows.toNat st.cols.toNat)
    (hok : (deallocate_seat st roll).2 = Msg.deallocated roll r c) :
    ((0 ≤ r ∧ r < st.rows ∧ 0 ≤ c ∧ c < st.cols) →
      (deallocate_seat st roll).1.seat r.toNat c.toNat = ⟨0, 0⟩ ∧
      (∀ i j, (i ≠ r.toNat ∨ j ≠ c.toNat) →
        (deallocate_seat st roll).1.seat i j = st.seat i j)) ∧
    (¬ (0 ≤ r ∧ r < st.rows ∧ 0 ≤ c ∧ c < st.cols) →
      (deallocate_seat st roll).1.hall = st.hall) ∧
    (∀ g, st.hall = some g → ∃ g2, (deallocate_seat st roll).1.hall = some g2 ∧
      Shaped g2 st.rows.toNat st.cols.toNat) ∧
    (st.hall = none → (deallocate_seat st roll).1.hall = none) ∧
    (deallocate_seat st roll).1.rows = st.rows ∧ (deallocate_seat st roll).1.cols = st.cols := by
  rcases deallocate_cases st roll with ⟨_, heq⟩ | ⟨s, hf, heq⟩
  · rw [heq] at hok; cases hok
  · rw [heq] at hok ⊢
    injection hok with _ h1 h2
    subst h1 h2
    show (_ → State.seat ⟨_, _, clearedHall st s.row s.col, _, _⟩ _ _ = _ ∧
        ∀ i j, _ → State.seat ⟨_, _, clearedHall st s.row s.col, _, _⟩ i j = _) ∧
      (_ → clearedHall st s.row s.col = _) ∧
      (∀ g, _ → ∃ g2, clearedHall st s.row s.col = some g2 ∧ _) ∧
      (_ → clearedHall st s.row s.col = none) ∧ _
    unfold clearedHall State.seat
    cases hh : st.hall with
    | none =>
      refine ⟨fun _ => ⟨rfl, fun _ _ _ => rfl⟩, fun _ => rfl, ?_, fun _ => rfl, rfl, rfl⟩
      intro g hg; cases hg
    | some g =>
      have hs := hshape g hh
      by_cases hb : 0 ≤ s.row ∧ s.row < st.rows ∧ 0 ≤ s.col ∧ s.col < st.cols
      · simp only [if_pos hb]
        refine ⟨fun _ => ⟨?_, ?_⟩, fun h => absurd hb h, ?_, ?_, rfl, rfl⟩
        · exact seatAt_setSeat_same hs (by omega) (by omega) _
        · intro i j hne
          exact seatAt_setSeat_other _ _ _ _ _ _ hne
        · intro g0 hg0
          cases hg0
          exact ⟨_, rfl, shaped_setSeat hs _ _ _⟩
        · intro h; cases h
      · simp only [if_neg hb]
        refine ⟨fun h => absurd h hb, fun _ => trivial, ?_, ?_, rfl, rfl⟩
        · intro g0 hg0
          cases hg0
          exact ⟨_, rfl, hs⟩
        · intro h; cases h

/-! ## Resize and rebuild -/

theorem lastAt_eq_none (l : List Student) (i j : Nat) :
    lastAt l i j = none ↔ ∀ s, s ∈ l → ¬ s.isAt i j := by
  unfold lastAt
  simp

theorem lastAt_some (l : List Student) (i j : Nat) (s : Student) (h : lastAt l i j = some s) :
    s ∈ l ∧ s.isAt i j := by
  unfold lastAt at h
  constructor
  · exact List.mem_reverse.mp (List.mem_of_find?_eq_some h)
  · simpa using List.find?_some h

theorem lastAt_split (pre post : List Student) (s : Student) (i j : Nat)
    (hs : s.isAt i j) (hpost : ∀ t, t ∈ post → ¬ t.isAt i j) :
    lastAt (pre ++ s :: post) i j = some s := by
  unfold lastAt
  have h1 : post.reverse.find? (fun s => decide (s.isAt i j)) = none := by
    rw [List.find?_eq_none]
    intro t ht
    simpa using hpost t (List.mem_reverse.mp ht)
  rw [List.reverse_append, List.reverse_cons, List.find?_append, List.find?_append, h1]
  rw [List.find?_cons_of_pos _ (by simpa using hs)]
  rfl

theorem lastAt_remove (pre post : List Student) (s : Student) (i j : Nat)
    (hs : ¬ s.isAt i j) :
    lastAt (pre ++ s :: post) i j = lastAt (pre ++ post) i j := by
  unfold lastAt
  rw [List.reverse_append, List.reverse_cons, List.find?_append, List.find?_append,
    List.reverse_append, List.find?_append]
  rw [List.find?_cons_of_neg _ (by simpa using hs)]
  simp

theorem resize_in_range (st : State) (nr nc : Int) (h1 : 1 ≤ nr) (h2 : nr ≤ MAX_ROWS)
    (h3 : 1 ≤ nc) (h4 : nc ≤ MAX_COLS) (hd : nr ≠ st.rows ∨ nc ≠ st.cols) :
    resize st nr nc =
      ⟨nr, nc,
        some (st.list.foldl (placeStudent nr nc)
          (clearHall nr.toNat nc.toNat
            (List.replicate nr.toNat (List.replicate nc.toNat ⟨0, 0⟩)))),
        st.list, some ⟨nr, nc, st.list.length, st.list⟩⟩ := by
  unfold resize
  rw [if_pos ⟨by omega, by omega, hd⟩]
  simp only []
  rw [ensure_fresh _ rfl (by show 0 < nr; omega) (by show 0 < nc; omega) h2 h4]
  rfl

theorem resize_oversize (st : State) (nr nc : Int) (h1 : 0 < nr) (h3 : 0 < nc)
    (hbig : nr > MAX_ROWS ∨ nc > MAX_COLS) (hd : nr ≠ st.rows ∨ nc ≠ st.cols) :
    resize st nr nc = ⟨0, 0, none, [], none⟩ := by
  unfold resize
  rw [if_pos ⟨h1, h3, hd⟩]
  simp only []
  rw [ensure_reset _ rfl (by show 0 < nr; omega) (by show 0 < nc; omega) hbig]
  rfl

theorem resize_unchanged (st : State) (nr nc : Int)
    (hgrid : st.rows ≤ 0 ∨ st.cols ≤ 0 ∨ st.hall.isSome)
    (h : ¬ (nr > 0 ∧ nc > 0 ∧ (nr ≠ st.rows ∨ nc ≠ st.cols))) :
    resize st nr nc = st := by
  unfold resize
  rw [if_neg h]
  split
  · exact ensure_noop st hgrid
  · rfl

theorem rebuilt_seat (nr nc : Int) (l : List Student) (i j : Nat)
    (hi : i < nr.toNat) (hj : j < nc.toNat) :
    seatAt (l.foldl (placeStudent nr nc)
        (clearHall nr.toNat nc.toNat
          (List.replicate nr.toNat (List.replicate nc.toNat ⟨0, 0⟩)))) i j =
      seatFor (lastAt l i j) := by
  have hs := clearHall_shaped _ nr.toNat nc.toNat (shaped_replicate nr.toNat nc.toNat ⟨0, 0⟩)
  rw [(rebuild_fold_spec nr nc l _ hs).2 i j hi hj]
  cases lastAt l i j with
  | some s => rfl
  | none =>
    exact clearHall_seat _ _ _ (shaped_replicate nr.toNat nc.toNat ⟨0, 0⟩) i j hi hj

theorem rebuilt_shaped (nr nc : Int) (l : List Student) :
    Shaped (l.foldl (placeStudent nr nc)
        (clearHall nr.toNat nc.toNat
          (List.replicate nr.toNat (List.replicate nc.toNat ⟨0, 0⟩)))) nr.toNat nc.toNat :=
  (rebuild_fold_spec nr nc l _
    (clearHall_shaped _ nr.toNat nc.toNat (shaped_replicate nr.toNat nc.toNat ⟨0, 0⟩))).1

/-- C9: a resize to `(newRows, newCols)` with `1 ≤ newRows ≤ 100`,
`1 ≤ newCols ≤ 100`, different from the current dimensions, yields a grid of
exactly `newRows` rows of `newCols` seats; seat `(r, c)` is occupied exactly when
some roster student is stored at `(r, c)`, it then holds `{1, roll}` of the last
such student in roster order, and it is `{0, 0}` when there is none. -/
theorem resize_rebuilds_grid (st : State) (newRows newCols : Int)
    (h1 : 1 ≤ newRows) (h2 : newRows ≤ 100) (h3 : 1 ≤ newCols) (h4 : newCols ≤ 100)
    (hd : newRows ≠ st.rows ∨ newCols ≠ st.cols) :
    (resize st newRows newCols).rows = newRows ∧
    (resize st newRows newCols).cols = newCols ∧
    ∃ g, (resize st newRows newCols).hall = some g ∧
      g.length = newRows.toNat ∧ (∀ row, row ∈ g → row.length = newCols.toNat) ∧
      ∀ r c, r < newRows.toNat → c < newCols.toNat →
        ((seatAt g r c).occupied ≠ 0 ↔ ∃ s, s ∈ st.list ∧ s.isAt r c) ∧
        (∀ pre s post, st.list = pre ++ s :: post → s.isAt r c →
          (∀ t, t ∈ post → ¬ t.isAt r c) → seatAt g r c = ⟨1, s.roll⟩) ∧
        ((∀ s, s ∈ st.list → ¬ s.isAt r c) → seatAt g r c = ⟨0, 0⟩) := by
  rw [resize_in_range st newRows newCols h1 h2 h3 h4 hd]
  refine ⟨rfl, rfl, _, rfl, (rebuilt_shaped newRows newCols st.list).1,
    (rebuilt_shaped newRows newCols st.list).2, ?_⟩
  intro r c hr hc
  rw [rebuilt_seat newRows newCols st.list r c hr hc]
  refine ⟨?_, ?_, ?_⟩
  · cases hl : lastAt st.list r c with
    | some s =>
      obtain ⟨hm, hat⟩ := lastAt_some _ _ _ _ hl
      constructor
      · intro _; exact ⟨s, hm, hat⟩
      · intro _; simp [seatFor]
    | none =>
      constructor
      · intro h; exact absurd rfl h
      · rintro ⟨s, hm, hat⟩
        exact absurd hat ((lastAt_eq_none _ _ _).mp hl s hm)
  · intro pre s post hl hat hpost
    rw [hl, lastAt_split pre post s r c hat hpost]
    rfl
  · intro h
    rw [(lastAt_eq_none _ _ _).mpr h]
    rfl

/-! ## Reachable states -/

theorem inv_grid (st : State) (h : Inv st) : st.rows ≤ 0 ∨ st.cols ≤ 0 ∨ st.hall.isSome := by
  rcases h.2.2 with ⟨_, h0, _⟩ | ⟨_, _, _, _, g, hg, _⟩
  · left; omega
  · right; right; simp [hg]

theorem inv_empty : Inv State.empty := by
  refine ⟨by simp [State.empty], by simp [State.empty], Or.inl ⟨rfl, rfl, rfl, rfl⟩⟩

theorem inv_resize (st : State) (nr nc : Int) (h : Inv st) : Inv (resize st nr nc) := by
  by_cases hc : nr > 0 ∧ nc > 0 ∧ (nr ≠ st.rows ∨ nc ≠ st.cols)
  · obtain ⟨h1, h3, hd⟩ := hc
    by_cases hbig : nr > MAX_ROWS ∨ nc > MAX_COLS
    · rw [resize_oversize st nr nc h1 h3 hbig hd]
      exact inv_empty
    · have h2 : nr ≤ MAX_ROWS := by omega
      have h4 : nc ≤ MAX_COLS := by omega
      rw [resize_in_range st nr nc (by omega) h2 (by omega) h4 hd]
      refine ⟨h.1, h.2.1, Or.inr ⟨h1, h2, h3, h4, _, rfl, rebuilt_shaped nr nc st.list, ?_⟩⟩
      intro i j hi hj
      exact rebuilt_seat nr nc st.list i j hi hj
  · rw [resize_unchanged st nr nc (inv_grid st h) hc]
    exact h

theorem inv_allocate (st : State) (roll : Int) (name : String) (h : Inv st) :
    Inv (allocate_random st roll name).1 := by
  have hprep := allocPrep_of_grid st (inv_grid st h)
  rcases allocate_cases st roll name with ⟨_, heq⟩ | ⟨_, _, _, heq⟩ | ⟨_, _, _, _, heq⟩ |
    ⟨hr, hc, hf, i, j, hff, heq⟩
  · rw [heq]; exact h
  · rw [heq, hprep]; exact h
  · rw [heq, hprep]; exact h
  · rw [heq, hprep]
    rw [hprep] at hf hff
    obtain ⟨hrolls, hpos, hgrid⟩ := h
    rcases hgrid with ⟨_, h0, _⟩ | ⟨hr1, hr2, hc1, hc2, g, hg, hs, hseat⟩
    · exact absurd h0 hr
    · obtain ⟨hi, hj, hfree, _⟩ := (firstFree_eq_some st i j).mp hff
      rw [state_seat_of_hall st g hg, hseat i j hi hj] at hfree
      have hnone : lastAt st.list i j = none := by
        cases hl : lastAt st.list i j with
        | none => rfl
        | some t => rw [hl] at hfree; simp [seatFor] at hfree
      have hnobody := (lastAt_eq_none _ _ _).mp hnone
      have hnoroll := (find_student_eq_none st roll).mp hf
      refine ⟨?_, ?_, Or.inr ⟨hr1, hr2, hc1, hc2, setSeat g i j ⟨1, roll⟩, ?_,
        shaped_setSeat hs _ _ _, ?_⟩⟩
      · show ((st.list ++ [(⟨roll, storedName name i j, i, j⟩ : Student)]).map
          Student.roll).Nodup
        rw [List.map_append, List.nodup_append]
        refine ⟨hrolls, by simp, ?_⟩
        intro a ha hb
        simp only [List.map_cons, List.map_nil, List.mem_singleton] at hb
        obtain ⟨t, ht, hta⟩ := List.mem_map.mp ha
        exact hnoroll t ht (by rw [hta, hb])
      · show ((st.list ++ [(⟨roll, storedName name i j, i, j⟩ : Student)]).map
          (fun s => (s.row, s.col))).Nodup
        rw [List.map_append, List.nodup_append]
        refine ⟨hpos, by simp, ?_⟩
        intro a ha hb
        simp only [List.map_cons, List.map_nil, List.mem_singleton] at hb
        obtain ⟨t, ht, hta⟩ := List.mem_map.mp ha
        rw [hb] at hta
        injection hta with e1 e2
        exact hnobody t ht ⟨e1, e2⟩
      · show Option.map _ st.hall = _
        rw [hg]; rfl
      · intro i2 j2 hi2 hj2
        show seatAt _ i2 j2 =
          seatFor (lastAt (st.list ++ [⟨roll, storedName name i j, i, j⟩]) i2 j2)
        rw [lastAt_append_single]
        by_cases hat : i2 = i ∧ j2 = j
        · obtain ⟨rfl, rfl⟩ := hat
          rw [if_pos (show Student.isAt (⟨roll, storedName name i2 j2, i2, j2⟩ : Student) i2 j2
            from ⟨rfl, rfl⟩)]
          exact seatAt_setSeat_same hs hi hj _
        · have hnat : ¬ Student.isAt (⟨roll, storedName name i j, i, j⟩ : Student) i2 j2 := by
            intro hh
            have e1 : (i : Int) = i2 := hh.1
            have e2 : (j : Int) = j2 := hh.2
            omega
          rw [if_neg hnat, seatAt_setSeat_other _ _ _ _ _ _ (by omega)]
          exact hseat i2 j2 hi2 hj2

theorem inv_deallocate (st : State) (roll : Int) (h : Inv st) :
    Inv (deallocate_seat st roll).1 := by
  rcases deallocate_cases st roll with ⟨_, heq⟩ | ⟨s, hf, heq⟩
  · rw [heq]; exact h
  · rw [heq]
    obtain ⟨pre, post, hl, hs, hpre⟩ := find_student_some st roll s hf
    have hrem : removeRoll st.list roll = pre ++ post := by
      rw [hl]; exact removeRoll_split pre post s roll hs hpre
    obtain ⟨hrolls, hpos, hgrid⟩ := h
    have hsub : (pre ++ post).Sublist st.list := by
      rw [hl]
      exact List.Sublist.append (List.Sublist.refl pre) (List.sublist_cons_self s post)
    rcases hgrid with ⟨_, _, _, h0⟩ | ⟨hr1, hr2, hc1, hc2, g, hg, hsh, hseat⟩
    · rw [h0] at hl
      exact absurd hl (by simp)
    · have hother : ∀ t, t ∈ pre ++ post → (t.row, t.col) ≠ (s.row, s.col) := by
        intro t ht heq2
        rw [hl, List.map_append, List.map_cons] at hpos
        have hnd := List.nodup_middle.mp hpos
        rw [List.nodup_cons] at hnd
        apply hnd.1
        rw [← List.map_append, ← heq2]
        exact List.mem_map_of_mem _ ht
      refine ⟨?_, ?_, Or.inr ⟨hr1, hr2, hc1, hc2, ?_⟩⟩
      · show ((removeRoll st.list roll).map Student.roll).Nodup
        rw [hrem]
        exact List.Nodup.sublist (List.Sublist.map _ hsub) hrolls
      · show ((removeRoll st.list roll).map (fun s => (s.row, s.col))).Nodup
        rw [hrem]
        exact List.Nodup.sublist (List.Sublist.map _ hsub) hpos
      · show ∃ g2, clearedHall st s.row s.col = some g2 ∧ Shaped g2 st.rows.toNat st.cols.toNat ∧
          ∀ i j, i < st.rows.toNat → j < st.cols.toNat →
            seatAt g2 i j = seatFor (lastAt (removeRoll st.list roll) i j)
        rw [hrem]
        unfold clearedHall
        rw [hg]
        simp only []
        by_cases hb : 0 ≤ s.row ∧ s.row < st.rows ∧ 0 ≤ s.col ∧ s.col < st.cols
        · rw [if_pos hb]
          refine ⟨_, rfl, shaped_setSeat hsh _ _ _, ?_⟩
          intro i j hi hj
          by_cases hat : s.isAt i j
          · have e1 : s.row.toNat = i := by have := hat.1; omega
            have e2 : s.col.toNat = j := by have := hat.2; omega
            rw [e1, e2, seatAt_setSeat_same hsh hi hj]
            have : lastAt (pre ++ post) i j = none := by
              rw [lastAt_eq_none]
              intro t ht htat
              apply hother t ht
              rw [htat.1, htat.2, hat.1, hat.2]
            rw [this]
            rfl
          · have hne : i ≠ s.row.toNat ∨ j ≠ s.col.toNat := by
              by_contra hcon
              push_neg at hcon
              apply hat
              constructor
              · have := hcon.1; omega
              · have := hcon.2; omega
            rw [seatAt_setSeat_other _ _ _ _ _ _ hne, hseat i j hi hj, hl,
              lastAt_remove pre post s i j hat]
        · rw [if_neg hb]
          refine ⟨_, rfl, hsh, ?_⟩
          intro i j hi hj
          have hat : ¬ s.isAt i j := by
            intro hat
            apply hb
            have := hat.1
            have := hat.2
            omega
          rw [hseat i j hi hj, hl, lastAt_remove pre post s i j hat]

theorem reachable_inv (st : State) (h : Reachable st) : Inv st := by
  induction h with
  | empty => exact inv_empty
  | resize st nr nc _ ih => exact inv_resize st nr nc ih
  | allocate st roll name _ ih => exact inv_allocate st roll name ih
  | deallocate st roll _ ih => exact inv_deallocate st roll ih

theorem inv_consistent (st : State) (h : Inv st) : Consistent st := by
  obtain ⟨hrolls, hpos, hgrid⟩ := h
  rcases hgrid with ⟨_, _, _, h0⟩ | ⟨hr1, hr2, hc1, hc2, g, hg, hsh, hseat⟩
  · constructor
    · intro s hs
      rw [h0] at hs
      cases hs
    · intro g hg
      rename_i hnone _ _
      rw [hnone] at hg
      cases hg
  · constructor
    · intro s hs hb
      refine ⟨g, hg, ?_⟩
      rw [hseat _ _ (by omega) (by omega)]
      have hat : s.isAt s.row.toNat s.col.toNat := by
        constructor
        · omega
        · omega
      cases hl : lastAt st.list s.row.toNat s.col.toNat with
      | none => exact absurd hat ((lastAt_eq_none _ _ _).mp hl s hs)
      | some t =>
        obtain ⟨ht, htat⟩ := lastAt_some _ _ _ _ hl
        have : t = s := by
          apply List.inj_on_of_nodup_map hpos ht hs
          show (t.row, t.col) = (s.row, s.col)
          rw [htat.1.trans hat.1.symm, htat.2.trans hat.2.symm]
        rw [this]
        rfl
    · intro g2 hg2 i j hi hj hocc
      rw [hg] at hg2
      cases hg2
      rw [hseat i j hi hj] at hocc ⊢
      cases hl : lastAt st.list i j with
      | none => rw [hl] at hocc; exact absurd rfl hocc
      | some t =>
        obtain ⟨ht, htat⟩ := lastAt_some _ _ _ _ hl
        show (st.list.filter (fun s => decide (s.roll = t.roll ∧ s.isAt i j))).length = 1
        have hcount : (st.list.map Student.roll).count t.roll = 1 :=
          List.count_eq_one_of_mem hrolls (List.mem_map_of_mem _ ht)
        rw [List.count_eq_countP, List.countP_map, List.countP_eq_length_filter] at hcount
        rw [← hcount]
        congr 1
        apply List.filter_congr
        intro u hu
        by_cases hur : u.roll = t.roll
        · have : u = t := List.inj_on_of_nodup_map hrolls hu ht hur
          subst this
          simp [htat]
        · simp [hur]

theorem fullHall_reachable : Reachable fullHall :=
  Reachable.allocate _ _ _ (Reachable.allocate _ _ _ (Reachable.allocate _ _ _
    (Reachable.allocate _ _ _ (Reachable.resize _ _ _ Reachable.empty))))

/-- C1: every state reachable from the empty state by resize, allocate and
deallocate calls satisfies the consistency invariant. -/
theorem reachable_consistent (st : State) (h : Reachable st) : Consistent st :=
  inv_consistent st (reachable_inv st h)

/-- C10: on a reachable state, a resize to dimensions within 1..100 leaves the
roster unchanged; for every student stored outside the new bounds no seat of the
new grid is occupied with that student's roll (and no seat carries the roll at
all when it is not 0), and a following `deallocate_seat` of that roll succeeds
and removes the student's entry from the roster. -/
theorem resize_keeps_roster (st : State) (newRows newCols : Int) (hreach : Reachable st)
    (h1 : 1 ≤ newRows) (h2 : newRows ≤ 100) (h3 : 1 ≤ newCols) (h4 : newCols ≤ 100) :
    (resize st newRows newCols).list = st.list ∧
    ∀ s, s ∈ st.list → ¬ (0 ≤ s.row ∧ s.row < newRows ∧ 0 ≤ s.col ∧ s.col < newCols) →
      (∀ i j, i < newRows.toNat → j < newCols.toNat →
        ¬ (((resize st newRows newCols).seat i j).occupied ≠ 0 ∧
            ((resize st newRows newCols).seat i j).roll = s.roll)) ∧
      (s.roll ≠ 0 → ∀ i j, i < newRows.toNat → j < newCols.toNat →
        ((resize st newRows newCols).seat i j).roll ≠ s.roll) ∧
      (deallocate_seat (resize st newRows newCols) s.roll).2 =
        Msg.deallocated s.roll s.row s.col ∧
      (∀ t, t ∈ (deallocate_seat (resize st newRows newCols) s.roll).1.list →
        t.roll ≠ s.roll) ∧
      (deallocate_seat (resize st newRows newCols) s.roll).1.list.length + 1 =
        st.list.length := by
  have hinv := reachable_inv st hreach
  have hinv2 := inv_resize st newRows newCols hinv
  have hfacts : (resize st newRows newCols).list = st.list ∧
      (resize st newRows newCols).rows = newRows ∧
      (resize st newRows newCols).cols = newCols := by
    by_cases hd : newRows ≠ st.rows ∨ newCols ≠ st.cols
    · rw [resize_in_range st newRows newCols h1 h2 h3 h4 hd]
      exact ⟨rfl, rfl, rfl⟩
    · rw [resize_unchanged st newRows newCols (inv_grid st hinv) (fun hc => hd hc.2.2)]
      push_neg at hd
      exact ⟨rfl, hd.1.symm, hd.2.symm⟩
  obtain ⟨hlist, hrows, hcols⟩ := hfacts
  refine ⟨hlist, ?_⟩
  generalize resize st newRows newCols = st2 at hinv2 hlist hrows hcols ⊢
  intro s hs hout
  rw [← hlist] at hs ⊢
  obtain ⟨hrolls, hpos, hgrid⟩ := hinv2
  rcases hgrid with ⟨_, _, _, h0⟩ | ⟨_, _, _, _, g, hg, hsh, hseat⟩
  · rw [h0] at hs; cases hs
  · have hseat2 : ∀ i j, i < newRows.toNat → j < newCols.toNat →
        st2.seat i j = seatFor (lastAt st2.list i j) := by
      intro i j hi hj
      rw [state_seat_of_hall st2 g hg]
      exact hseat i j (by rw [hrows]; exact hi) (by rw [hcols]; exact hj)
    have hnot : ∀ i j, i < newRows.toNat → j < newCols.toNat → ∀ t,
        lastAt st2.list i j = some t → t.roll ≠ s.roll := by
      intro i j hi hj t hl hroll
      obtain ⟨ht, htat⟩ := lastAt_some _ _ _ _ hl
      have : t = s := List.inj_on_of_nodup_map hrolls ht hs hroll
      subst this
      apply hout
      have := htat.1
      have := htat.2
      omega
    obtain ⟨pre, post, hl, hsr, hpre⟩ : ∃ pre post, st2.list = pre ++ s :: post ∧
        s.roll = s.roll ∧ ∀ t, t ∈ pre → t.roll ≠ s.roll := by
      cases hf : find_student st2 s.roll with
      | none => exact absurd rfl ((find_student_eq_none st2 s.roll).mp hf s hs)
      | some t =>
        obtain ⟨pre, post, hl, htr, hpre⟩ := find_student_some st2 s.roll t hf
        have ht : t ∈ st2.list := by rw [hl]; simp
        have : t = s := List.inj_on_of_nodup_map hrolls ht hs htr
        subst this
        exact ⟨pre, post, hl, rfl, hpre⟩
    refine ⟨?_, ?_, ?_, ?_, ?_⟩
    · intro i j hi hj hcon
      rw [hseat2 i j hi hj] at hcon
      cases hlast : lastAt st2.list i j with
      | none => rw [hlast] at hcon; exact hcon.1 rfl
      | some t => rw [hlast] at hcon; exact hnot i j hi hj t hlast hcon.2
    · intro hnz i j hi hj hcon
      rw [hseat2 i j hi hj] at hcon
      cases hlast : lastAt st2.list i j with
      | none => rw [hlast] at hcon; exact hnz hcon.symm
      | some t => rw [hlast] at hcon; exact hnot i j hi hj t hlast hcon
    · rw [deallocate_split st2 s.roll pre post s hl rfl hpre]
    · rw [deallocate_split st2 s.roll pre post s hl rfl hpre]
      show ∀ t, t ∈ pre ++ post → t.roll ≠ s.roll
      intro t ht htr
      have hnd : ((pre ++ s :: post).map Student.roll).Nodup := by rw [← hl]; exact hrolls
      rw [List.map_append, List.map_cons] at hnd
      have hnd2 := List.nodup_middle.mp hnd
      rw [List.nodup_cons] at hnd2
      apply hnd2.1
      rw [← List.map_append, ← htr]
      exact List.mem_map_of_mem _ ht
    · rw [deallocate_split st2 s.roll pre post s hl rfl hpre]
      show (pre ++ post).length + 1 = _
      rw [hl]
      simp
      omega

/-! ## Instances at concrete states -/

theorem threeSeated_shaped :
    ∀ g, threeSeated.hall = some g → Shaped g threeSeated.rows.toNat threeSeated.cols.toNat := by
  intro g hg
  cases hg
  exact ⟨rfl, by decide⟩

theorem orphanState_shaped :
    ∀ g, orphanState.hall = some g → Shaped g orphanState.rows.toNat orphanState.cols.toNat := by
  intro g hg
  cases hg
  exact ⟨rfl, by decide⟩

/-- Instance of C1 at the full 2 x 2 hall. -/
theorem reachable_consistent_witness : Reachable fullHall ∧ Consistent fullHall :=
  ⟨fullHall_reachable, reachable_consistent fullHall fullHall_reachable⟩

/-- Instance of C2 (amended): in `threeSeated` the new roll 4 gets seat `(1, 1)`;
in `gridlessState` (2 x 2, no grid yet) the new roll 8 gets seat `(0, 0)`. -/
theorem allocate_first_fit_witness :
    0 < threeSeated.rows ∧ 0 < threeSeated.cols ∧
    (∀ s, s ∈ threeSeated.list → s.roll ≠ 4) ∧
    (allocate_random threeSeated 4 "d").2 = Msg.allocated "d" 4 1 1 ∧
    ((allocate_random threeSeated 4 "d").2 = Msg.hallFull ↔
      ∀ i j, i < threeSeated.rows.toNat → j < threeSeated.cols.toNat →
        (threeSeated.seat i j).occupied ≠ 0) ∧
    gridlessState.hall = none ∧
    ((allocate_random gridlessState 8 "e").2 = Msg.allocated "e" 8 0 0 ↔
      (0 < gridlessState.rows.toNat ∧ 0 < gridlessState.cols.toNat ∧
        (gridlessState.seat 0 0).occupied = 0 ∧
        ∀ i j, i < gridlessState.rows.toNat → j < gridlessState.cols.toNat →
          (i < 0 ∨ (i = 0 ∧ j < 0)) → (gridlessState.seat i j).occupied ≠ 0)) :=
  ⟨by decide, by decide, by decide, by decide,
    (allocate_first_fit threeSeated 4 "d" (by decide) (by decide) (Or.inl (by decide))
      (by decide)).2,
    rfl,
    (allocate_first_fit gridlessState 8 "e" (by decide) (by decide)
      (Or.inr ⟨by decide, by decide⟩) (by decide)).1 0 0⟩

/-- Instance of C3 (amended): allocating roll 4 with the name "d" in `threeSeated`. -/
theorem allocate_effect_witness :
    (allocate_random threeSeated 4 "d").2 = Msg.allocated "d" 4 1 1 ∧
    (allocate_random threeSeated 4 "d").1.list = threeSeated.list ++ [⟨4, "d", 1, 1⟩] ∧
    (allocate_random threeSeated 4 "d").1.seat 1 1 = ⟨1, 4⟩ ∧
    (∀ i j, (i ≠ 1 ∨ j ≠ 1) →
      (allocate_random threeSeated 4 "d").1.seat i j = threeSeated.seat i j) :=
  have h := allocate_effect threeSeated 4 "d" 1 1 threeSeated_shaped (by decide) (by decide)
  ⟨by decide, h.1, h.2.2.2.2.1, h.2.2.2.2.2⟩

/-- Instance of C4 (amended): roll 2 is already seated in `threeSeated`. -/
theorem allocate_duplicate_witness :
    0 < threeSeated.rows ∧ 0 < threeSeated.cols ∧
    (∃ s, s ∈ threeSeated.list ∧ s.roll = 2) ∧
    (allocate_random threeSeated 2 "x").2 = Msg.duplicateRoll 2 ∧
    ((allocate_random threeSeated 2 "x").1.list.filter
      (fun s => decide (s.roll = 2))).length = 1 :=
  have h := allocate_duplicate threeSeated 2 "x" (by decide) (by decide)
    (Or.inl (by decide)) (by decide)
  ⟨by decide, by decide, by decide, h.1, h.2.2 (by decide)⟩

/-- Instance of C5 (amended): a duplicate allocation and an unknown roll in
`threeSeated`, whose grid exists. -/
theorem failed_call_keeps_state_witness :
    (allocate_random threeSeated 2 "x").2 = Msg.duplicateRoll 2 ∧
    (allocate_random threeSeated 2 "x").1 = threeSeated ∧
    (deallocate_seat threeSeated 9).2 = Msg.rollNotFound ∧
    (deallocate_seat threeSeated 9).1 = threeSeated :=
  ⟨by decide,
    (failed_call_keeps_state threeSeated 2 "x").2.2.1 (Or.inr (Or.inr (by decide)))
      (Or.inl (by decide)),
    by decide,
    (failed_call_keeps_state threeSeated 9 "x").2.2.2 (by decide)⟩

/-- Instance of C6: the orphaned roll 4 of `orphanState` is reported at its
stored position `(1, 1)`, outside the 1 x 1 grid. -/
theorem deallocate_result_witness :
    (deallocate_seat orphanState 4).2 = Msg.deallocated 4 1 1 ∧
    ((deallocate_seat orphanState 9).2 = Msg.rollNotFound ↔
      ∀ s, s ∈ orphanState.list → s.roll ≠ 9) :=
  ⟨(deallocate_result orphanState 4).2 [⟨1, "a", 0, 0⟩] ⟨4, "d", 1, 1⟩ [] rfl rfl (by decide),
    (deallocate_result orphanState 9).1⟩

/-- Instance of C7: removing roll 2 from `threeSeated`. -/
theorem deallocate_roster_witness :
    (deallocate_seat threeSeated 2).2 = Msg.deallocated 2 0 1 ∧
    ∃ pre s post, threeSeated.list = pre ++ s :: post ∧ s.roll = 2 ∧
      (∀ t, t ∈ pre → t.roll ≠ 2) ∧
      (deallocate_seat threeSeated 2).1.list = pre ++ post ∧
      (deallocate_seat threeSeated 2).1.list.length + 1 = threeSeated.list.length :=
  ⟨by decide, deallocate_roster threeSeated 2 0 1 (by decide)⟩

/-- Instance of C8: deallocating the orphaned roll 4 leaves the 1 x 1 grid as it
is; deallocating roll 2 of `threeSeated` frees seat `(0, 1)`. -/
theorem deallocate_grid_witness :
    (deallocate_seat orphanState 4).2 = Msg.deallocated 4 1 1 ∧
    (deallocate_seat orphanState 4).1.hall = orphanState.hall ∧
    (deallocate_seat threeSeated 2).2 = Msg.deallocated 2 0 1 ∧
    (deallocate_seat threeSeated 2).1.seat 0 1 = ⟨0, 0⟩ :=
  ⟨by decide,
    (deallocate_grid orphanState 4 1 1 orphanState_shaped (by decide)).2.1 (by decide),
    by decide,
    ((deallocate_grid threeSeated 2 0 1 threeSeated_shaped (by decide)).1 (by decide)).1⟩

/-- Instance of C9: shrinking the full 2 x 2 hall to 1 x 1 leaves one seat, held
by roll 1. -/
theorem resize_rebuilds_grid_witness :
    (1 : Int) ≤ 1 ∧ (1 : Int) ≤ 100 ∧ ((1 : Int) ≠ fullHall.rows ∨ (1 : Int) ≠ fullHall.cols) ∧
    (resize fullHall 1 1).rows = 1 ∧ (resize fullHall 1 1).cols = 1 ∧
    (resize fullHall 1 1).hall = some [[⟨1, 1⟩]] :=
  have h := resize_rebuilds_grid fullHall 1 1 (by decide) (by decide) (by decide) (by decide)
    (Or.inl (by decide))
  ⟨by decide, by decide, Or.inl (by decide), h.1, h.2.1, by decide⟩

/-- Instance of C10: after shrinking the full 2 x 2 hall to 1 x 1, roll 4
(stored at `(1, 1)`) is in the roster, on no seat, and can be deallocated. -/
theorem resize_keeps_roster_witness :
    Reachable fullHall ∧
    (resize fullHall 1 1).list = fullHall.list ∧
    (deallocate_seat (resize fullHall 1 1) 4).2 = Msg.deallocated 4 1 1 ∧
    (∀ t, t ∈ (deallocate_seat (resize fullHall 1 1) 4).1.list → t.roll ≠ 4) :=
  have h := resize_keeps_roster fullHall 1 1 fullHall_reachable (by decide) (by decide)
    (by decide) (by decide)
  have h4 := h.2 ⟨4, "d", 1, 1⟩ (by decide) (by decide)
  ⟨fullHall_reachable, h.1, h4.2.2.1, h4.2.2.2.1⟩

/-! ## The grid lifecycle -/

/-- C18: for a state without a grid and with `rows > 0`, `cols > 0`:
with `rows > 100` or `cols > 100`, `ensure_hall_allocated` performs the full
reset (dimensions 0, no grid, empty roster), and so does a resize request to
such dimensions; otherwise it creates a grid of `rows` rows of `cols` seats, all
`{occupied = 0, roll = 0}`, and leaves `rows`, `cols` and the roster unchanged. -/
theorem ensure_grid_cases (st : State) (hh : st.hall = none) (hr : 0 < st.rows)
    (hc : 0 < st.cols) :
    ((st.rows > 100 ∨ st.cols > 100) →
      (ensure_hall_allocated st).rows = 0 ∧ (ensure_hall_allocated st).cols = 0 ∧
      (ensure_hall_allocated st).hall = none ∧ (ensure_hall_allocated st).list = [] ∧
      (ensure_hall_allocated st).list.length = 0) ∧
    (∀ other : State, (st.rows ≠ other.rows ∨ st.cols ≠ other.cols) →
      (st.rows > 100 ∨ st.cols > 100) →
      (resize other st.rows st.cols).list = [] ∧ (resize other st.rows st.cols).hall = none ∧
      (resize other st.rows st.cols).rows = 0 ∧ (resize other st.rows st.cols).cols = 0) ∧
    (¬ (st.rows > 100 ∨ st.cols > 100) →
      (ensure_hall_allocated st).rows = st.rows ∧ (ensure_hall_allocated st).cols = st.cols ∧
      (ensure_hall_allocated st).list = st.list ∧
      ∃ g, (ensure_hall_allocated st).hall = some g ∧
        g.length = st.rows.toNat ∧ (∀ row, row ∈ g → row.length = st.cols.toNat) ∧
        ∀ i j, i < st.rows.toNat → j < st.cols.toNat → seatAt g i j = ⟨0, 0⟩) := by
  refine ⟨?_, ?_, ?_⟩
  · intro hbig
    rw [ensure_reset st hh hr hc hbig]
    exact ⟨rfl, rfl, rfl, rfl, rfl⟩
  · intro other hd hbig
    rw [resize_oversize other st.rows st.cols hr hc hbig hd]
    exact ⟨rfl, rfl, rfl, rfl⟩
  · intro hsmall
    have h2 : st.rows ≤ MAX_ROWS := by
      show st.rows ≤ 100
      omega
    have h4 : st.cols ≤ MAX_COLS := by
      show st.cols ≤ 100
      omega
    rw [ensure_fresh st hh hr hc h2 h4]
    refine ⟨rfl, rfl, rfl, _, rfl, (shaped_replicate _ _ _).1, (shaped_replicate _ _ _).2, ?_⟩
    intro i j _ _
    exact seatAt_replicate _ _ i j

/-- C19: applying `ensure_hall_allocated` twice gives the same state as applying
it once, for every state. -/
theorem ensure_idempotent (st : State) :
    ensure_hall_allocated (ensure_hall_allocated st) = ensure_hall_allocated st := by
  by_cases h1 : st.rows ≤ 0 ∨ st.cols ≤ 0
  · have h := ensure_noop st (by tauto)
    rw [h, h]
  · by_cases h2 : st.hall.isSome = true
    · have h := ensure_noop st (Or.inr (Or.inr h2))
      rw [h, h]
    · have hh : st.hall = none := by
        cases hs : st.hall with
        | none => rfl
        | some g => rw [hs] at h2; exact absurd rfl h2
      by_cases h3 : st.rows > MAX_ROWS ∨ st.cols > MAX_COLS
      · rw [ensure_reset st hh (by omega) (by omega) h3]
        exact ensure_noop _ (Or.inl (le_refl _))
      · rw [ensure_fresh st hh (by omega) (by omega) (by omega) (by omega)]
        exact ensure_noop _ (Or.inr (Or.inr rfl))

/-! ## Invariants of reachable states -/

/-- C14: in every state reachable from the empty state by resize, allocate and
deallocate calls, no two roster entries have the same roll. -/
theorem reachable_rolls_unique (st : State) (h : Reachable st) :
    st.list.Pairwise (fun a b => a.roll ≠ b.roll) ∧ (st.list.map Student.roll).Nodup := by
  have hnd := (reachable_inv st h).1
  exact ⟨(List.pairwise_map.mp hnd), hnd⟩

/-- C15 (as stated) fails: the empty state resized to 100 x 100 is reachable and
has 10000 seats, more than `MAX_STUDENTS`. -/
theorem capacity_counterexample :
    Reachable (resize State.empty 100 100) ∧
    (resize State.empty 100 100).rows * (resize State.empty 100 100).cols = 10000 ∧
    ¬ ((resize State.empty 100 100).rows * (resize State.empty 100 100).cols ≤ MAX_STUDENTS) := by
  refine ⟨Reachable.resize _ _ _ Reachable.empty, ?_⟩
  rw [resize_in_range State.empty 100 100 (by decide) (by decide) (by decide) (by decide)
    (Or.inl (by decide))]
  decide

/-- C15 (amended): in every state reachable from the empty state by resize,
allocate and deallocate calls, `0 ≤ rows ≤ MAX_ROWS` and `0 ≤ cols ≤ MAX_COLS`,
so the capacity `rows * cols` is at most `MAX_ROWS * MAX_COLS = 10000`. -/
theorem reachable_capacity (st : State) (h : Reachable st) :
    0 ≤ st.rows ∧ st.rows ≤ MAX_ROWS ∧ 0 ≤ st.cols ∧ st.cols ≤ MAX_COLS ∧
    st.rows * st.cols ≤ 10000 := by
  have hinv := reachable_inv st h
  have hb : 0 ≤ st.rows ∧ st.rows ≤ 100 ∧ 0 ≤ st.cols ∧ st.cols ≤ 100 := by
    rcases hinv.2.2 with ⟨_, h1, h2, _⟩ | ⟨h1, h2, h3, h4, _⟩
    · rw [h1, h2]; decide
    · have h2b : st.rows ≤ 100 := h2
      have h4b : st.cols ≤ 100 := h4
      omega
  refine ⟨hb.1, hb.2.1, hb.2.2.1, hb.2.2.2, ?_⟩
  nlinarith [hb.1, hb.2.1, hb.2.2.1, hb.2.2.2]

/-! ## The data file -/

theorem load_out_of_range (st : State) (f : FileImage) (hf : st.file = some f)
    (hbad : f.rows < 0 ∨ f.rows > MAX_ROWS ∨ f.cols < 0 ∨ f.cols > MAX_COLS ∨
      f.count < 0 ∨ f.count > MAX_STUDENTS) :
    load_binary st = ⟨⟨0, 0, none, [], none⟩, 0⟩ := by
  unfold load_binary
  rw [hf]
  simp only []
  rw [if_pos hbad]
  rfl

theorem ensure_keeps (st : State) (hr : st.rows ≤ MAX_ROWS) (hc : st.cols ≤ MAX_COLS) :
    (ensure_hall_allocated st).rows = st.rows ∧ (ensure_hall_allocated st).cols = st.cols ∧
    (ensure_hall_allocated st).list = st.list ∧ (ensure_hall_allocated st).file = st.file ∧
    ((ensure_hall_allocated st).hall.isSome = true ↔
      (st.hall.isSome = true ∨ (0 < st.rows ∧ 0 < st.cols))) := by
  by_cases h1 : st.rows ≤ 0 ∨ st.cols ≤ 0
  · rw [ensure_noop st (by tauto)]
    refine ⟨rfl, rfl, rfl, rfl, ?_⟩
    constructor
    · intro h; exact Or.inl h
    · rintro (h | h)
      · exact h
      · omega
  · by_cases h2 : st.hall.isSome = true
    · rw [ensure_noop st (Or.inr (Or.inr h2))]
      exact ⟨rfl, rfl, rfl, rfl, fun h => Or.inl h, fun _ => h2⟩
    · have hh : st.hall = none := by
        cases hs : st.hall with
        | none => rfl
        | some g => rw [hs] at h2; exact absurd rfl h2
      rw [ensure_fresh st hh (by omega) (by omega) hr hc]
      exact ⟨rfl, rfl, rfl, rfl, fun _ => Or.inr (by omega), fun _ => rfl⟩

theorem rebuild_keeps (st : State) (h : st.rows ≤ 0 ∨ st.cols ≤ 0 ∨ st.hall.isSome) :
    (rebuild_hall_map st).rows = st.rows ∧ (rebuild_hall_map st).cols = st.cols ∧
    (rebuild_hall_map st).list = st.list ∧ (rebuild_hall_map st).file = st.file := by
  unfold rebuild_hall_map
  cases hh : st.hall with
  | none =>
    simp only []
    rw [ensure_noop st h]
    exact ⟨rfl, rfl, rfl, rfl⟩
  | some g => exact ⟨rfl, rfl, rfl, rfl⟩

theorem load_select (E : State) (n : Int) (recs : List Student) (r c : Int)
    (er : E.rows = r) (ec : E.cols = c) (el : E.list = [])
    (eh : E.hall.isSome = true ↔ (0 < r ∧ 0 < c)) :
    (if n > 0 ∧ E.hall.isSome = true then
        (⟨rebuild_hall_map { E with list := recs.take n.toNat }, n⟩ : Loaded)
      else ⟨E, n⟩).state.rows = r ∧
    (if n > 0 ∧ E.hall.isSome = true then
        (⟨rebuild_hall_map { E with list := recs.take n.toNat }, n⟩ : Loaded)
      else ⟨E, n⟩).state.cols = c ∧
    (if n > 0 ∧ E.hall.isSome = true then
        (⟨rebuild_hall_map { E with list := recs.take n.toNat }, n⟩ : Loaded)
      else ⟨E, n⟩).count = n ∧
    (if n > 0 ∧ E.hall.isSome = true then
        (⟨rebuild_hall_map { E with list := recs.take n.toNat }, n⟩ : Loaded)
      else ⟨E, n⟩).state.list =
      if n > 0 ∧ 0 < r ∧ 0 < c then recs.take n.toNat else [] := by
  by_cases hcond : n > 0 ∧ E.hall.isSome = true
  · rw [if_pos hcond, if_pos ⟨hcond.1, eh.mp hcond.2⟩]
    have hk := rebuild_keeps ({ E with list := recs.take n.toNat } : State)
      (Or.inr (Or.inr hcond.2))
    exact ⟨hk.1.trans er, hk.2.1.trans ec, rfl, hk.2.2.1⟩
  · rw [if_neg hcond, if_neg (fun h => hcond ⟨h.1, eh.mpr h.2⟩)]
    exact ⟨er, ec, rfl, el⟩

theorem load_start_spec (f : FileImage)
    (h1 : 0 ≤ f.rows) (h2 : f.rows ≤ MAX_ROWS) (h3 : 0 ≤ f.cols) (h4 : f.cols ≤ MAX_COLS)
    (h5 : 0 ≤ f.count) (h6 : f.count ≤ MAX_STUDENTS) :
    (load_binary (processStart (some f))).state.rows = f.rows ∧
    (load_binary (processStart (some f))).state.cols = f.cols ∧
    (load_binary (processStart (some f))).count = f.count ∧
    (load_binary (processStart (some f))).state.list =
      if f.count > 0 ∧ 0 < f.rows ∧ 0 < f.cols then f.records.take f.count.toNat else [] := by
  obtain ⟨er, ec, el, _, eh⟩ := ensure_keeps (⟨f.rows, f.cols, none, [], some f⟩ : State) h2 h4
  have eh2 : (ensure_hall_allocated ⟨f.rows, f.cols, none, [], some f⟩).hall.isSome = true ↔
      (0 < f.rows ∧ 0 < f.cols) := by
    rw [eh]
    constructor
    · rintro (h | h)
      · cases h
      · exact h
    · intro h; exact Or.inr h
  have key := load_select (ensure_hall_allocated ⟨f.rows, f.cols, none, [], some f⟩)
    f.count f.records f.rows f.cols er ec el eh2
  have hload : load_binary (processStart (some f)) =
      if f.count > 0 ∧
          (ensure_hall_allocated ⟨f.rows, f.cols, none, [], some f⟩).hall.isSome = true then
        (⟨rebuild_hall_map
          { ensure_hall_allocated ⟨f.rows, f.cols, none, [], some f⟩ with
            list := f.records.take f.count.toNat }, f.count⟩ : Loaded)
      else ⟨ensure_hall_allocated ⟨f.rows, f.cols, none, [], some f⟩, f.count⟩ := by
    unfold load_binary processStart
    simp only []
    rw [if_neg (by omega)]
  rw [hload]
  exact key

/-- C11 (as stated) fails: for the state with `rows = cols = 0` and a roster of
one student, loading what `save_binary` wrote leaves an empty roster (the
records are read only when the grid exists) next to `count = 1`. -/
theorem round_trip_counterexample :
    0 ≤ hallLessRoster.rows ∧ hallLessRoster.rows ≤ 100 ∧
    0 ≤ hallLessRoster.cols ∧ hallLessRoster.cols ≤ 100 ∧
    hallLessRoster.list.length ≤ 500 ∧
    (load_binary (processStart (save_binary hallLessRoster).file)).state.list = [] ∧
    (load_binary (processStart (save_binary hallLessRoster).file)).state.list ≠
      hallLessRoster.list := by
  decide

/-- C11 (amended): for a state with `0 ≤ rows ≤ 100`, `0 ≤ cols ≤ 100` and at
most 500 students, whose roster is empty or whose dimensions are both positive,
loading at process start the file written by `save_binary` yields the same
`rows`, the same `cols` and the same roster, with `count` its length. -/
theorem save_load_round_trip (st : State)
    (h1 : 0 ≤ st.rows) (h2 : st.rows ≤ 100) (h3 : 0 ≤ st.cols) (h4 : st.cols ≤ 100)
    (h5 : st.list.length ≤ 500) (hgrid : st.list = [] ∨ (0 < st.rows ∧ 0 < st.cols)) :
    (load_binary (processStart (save_binary st).file)).state.rows = st.rows ∧
    (load_binary (processStart (save_binary st).file)).state.cols = st.cols ∧
    (load_binary (processStart (save_binary st).file)).state.list = st.list ∧
    (load_binary (processStart (save_binary st).file)).count = st.list.length := by
  have hsave : (save_binary st).file =
      some ⟨st.rows, st.cols, st.list.length, st.list⟩ := rfl
  rw [hsave]
  obtain ⟨hr, hc, hn, hl⟩ := load_start_spec
    (⟨st.rows, st.cols, st.list.length, st.list⟩ : FileImage) h1 h2 h3 h4
    (by show (0 : Int) ≤ (st.list.length : Int); omega)
    (by show (st.list.length : Int) ≤ 500; omega)
  refine ⟨hr, hc, ?_, hn⟩
  rw [hl]
  show (if (st.list.length : Int) > 0 ∧ 0 < st.rows ∧ 0 < st.cols then
    List.take (st.list.length : Int).toNat st.list else []) = st.list
  by_cases hcond : (st.list.length : Int) > 0 ∧ 0 < st.rows ∧ 0 < st.cols
  · rw [if_pos hcond]
    simp
  · rw [if_neg hcond]
    by_cases hcnt : (st.list.length : Int) > 0
    · rcases hgrid with h | h
      · exact h.symm
      · exact absurd ⟨hcnt, h⟩ hcond
    · have : st.list.length = 0 := by omega
      exact (List.length_eq_zero.mp this).symm

/-- C12: when the header of the data file has `rows` outside `[0, 100]`, `cols`
outside `[0, 100]` or `count` outside `[0, 500]`, `load_binary` leaves the empty
state (dimensions 0, no grid, empty roster, `count = 0`) and no data file,
whatever records the file holds and whatever the state was. -/
theorem load_corrupt_header (st : State) (f : FileImage) (hf : st.file = some f)
    (hbad : f.rows < 0 ∨ f.rows > 100 ∨ f.cols < 0 ∨ f.cols > 100 ∨
      f.count < 0 ∨ f.count > 500) :
    (load_binary st).state.rows = 0 ∧ (load_binary st).state.cols = 0 ∧
    (load_binary st).count = 0 ∧ (load_binary st).state.hall = none ∧
    (load_binary st).state.list = [] ∧ (load_binary st).state.file = none := by
  rw [load_out_of_range st f hf hbad]
  exact ⟨rfl, rfl, rfl, rfl, rfl, rfl⟩

/-- C13 (the code at the failing input): for a file whose header declares three
students and which holds one complete record, `load_binary` leaves `count = 3`
next to the one record read. -/
theorem load_truncated_keeps_count :
    truncatedFile.count = 3 ∧ truncatedFile.records.length = 1 ∧
    (load_binary (processStart (some truncatedFile))).count = 3 ∧
    (load_binary (processStart (some truncatedFile))).state.list = [⟨1, "a", 0, 0⟩] ∧
    (load_binary (processStart (some truncatedFile))).count ≠
      (load_binary (processStart (some truncatedFile))).state.list.length := by
  decide

/-! ## First fit over a run of requests -/

theorem rowmajor_before (C i j k : Nat) (hj : j < C) :
    i * C + j < k ↔ (i < k / C ∨ (i = k / C ∧ j < k % C)) := by
  have hC : 0 < C := by omega
  have hdm := Nat.div_add_mod k C
  constructor
  · intro h
    rcases Nat.lt_trichotomy i (k / C) with h1 | h1 | h1
    · exact Or.inl h1
    · right
      refine ⟨h1, ?_⟩
      subst h1
      rw [Nat.mul_comm] at h
      omega
    · exfalso
      have h2 : k < i * C := (Nat.div_lt_iff_lt_mul hC).mp h1
      omega
  · rintro (h1 | ⟨h1, h2⟩)
    · have h3 : (i + 1) * C ≤ k := (Nat.le_div_iff_mul_le hC).mp h1
      rw [Nat.add_mul, Nat.one_mul] at h3
      omega
    · subst h1
      rw [Nat.mul_comm]
      omega

theorem rowmajor_at (C k : Nat) : k / C * C + k % C = k := by
  have hdm := Nat.div_add_mod k C
  rw [Nat.mul_comm]
  exact hdm

theorem rowmajor_unique (C i j k : Nat) (hj : j < C) (h : i * C + j = k) :
    i = k / C ∧ j = k % C := by
  have hC : 0 < C := by omega
  have h1 : ¬ (i * C + j < k) := by omega
  have h2 : i * C + j < k + 1 := by omega
  rw [rowmajor_before C i j k hj] at h1
  rw [rowmajor_before C i j (k + 1) hj] at h2
  have hdm := Nat.div_add_mod k C
  have hdm1 := Nat.div_add_mod (k + 1) C
  have hmod := Nat.mod_lt k hC
  have hmod1 := Nat.mod_lt (k + 1) hC
  push_neg at h1
  have hle : k / C ≤ i := by
    by_contra hcon
    exact absurd (Or.inl (by omega)) (by tauto : ¬ (i < k / C ∨ (i = k / C ∧ j < k % C)))
  have hdiv : (k + 1) / C ≤ k / C + 1 := by
    have : (k + 1) / C ≤ (k + C) / C := Nat.div_le_div_right (by omega)
    rw [Nat.add_div_right k hC] at this
    exact this
  have hik : i = k / C := by
    rcases h2 with h2 | ⟨h2, h3⟩
    · omega
    · by_contra hne
      have h4 : i = k / C + 1 := by omega
      have h5 : C * (k / C + 1) + (k + 1) % C = k + 1 := by rw [← h4, h2]; exact hdm1
      rw [Nat.mul_add, Nat.mul_one] at h5
      omega
  refine ⟨hik, ?_⟩
  subst hik
  rw [Nat.mul_comm] at h
  omega

theorem filled_step (st : State) (R C k : Nat) (rolls : List Int) (roll : Int) (name : String)
    (hR : 0 < R) (hC : 0 < C) (hF : Filled st R C k rolls) (hnew : roll ∉ rolls) :
    (k < R * C →
      (allocate_random st roll name).2 = Msg.allocated name roll (k / C) (k % C) ∧
      Filled (allocate_random st roll name).1 R C (k + 1) (rolls ++ [roll]) ∧
      Saved (allocate_random st roll name).1) ∧
    (R * C ≤ k → allocate_random st roll name = (st, Msg.hallFull)) := by
  obtain ⟨hrows, hcols, hrolls, g, hg, hsh, hocc⟩ := hF
  have hprep : allocPrep st = st := allocPrep_of_grid st (by simp [hg])
  have hfind : find_student st roll = none := by
    rw [find_student_eq_none]
    intro s hs hsr
    apply hnew
    rw [← hrolls, ← hsr]
    exact List.mem_map_of_mem _ hs
  have hRn : st.rows.toNat = R := by rw [hrows]; simp
  have hCn : st.cols.toNat = C := by rw [hcols]; simp
  have hseat : ∀ i j, st.seat i j = seatAt g i j := state_seat_of_hall st g hg
  have hfree : ∀ i j, i < R → j < C → ((seatAt g i j).occupied = 0 ↔ ¬ (i * C + j < k)) := by
    intro i j hi hj
    rw [← hocc i j hi hj]
    exact ⟨fun h hn => hn h, fun h => by_contra h⟩
  have hcases := allocate_cases st roll name
  rw [hprep] at hcases
  constructor
  · intro hk
    have hdivlt : k / C < R := (Nat.div_lt_iff_lt_mul hC).mpr hk
    have hmodlt : k % C < C := Nat.mod_lt k hC
    have hff : firstFree st = some (k / C, k % C) := by
      rw [firstFree_eq_some, hRn, hCn]
      refine ⟨hdivlt, hmodlt, ?_, ?_⟩
      · rw [hseat, hfree _ _ hdivlt hmodlt, rowmajor_at C k]
        omega
      · intro i j hi hj hord
        rw [hseat, hocc i j hi hj, rowmajor_before C i j k hj]
        exact hord
    rcases hcases with ⟨h0, _⟩ | ⟨_, _, ⟨s, hs⟩, _⟩ | ⟨_, _, _, hnone, _⟩ |
      ⟨_, _, _, i, j, hsome, heq⟩
    · rw [hrows, hcols] at h0
      omega
    · rw [hfind] at hs; cases hs
    · rw [hff] at hnone; cases hnone
    · rw [hff] at hsome
      injection hsome with hsome
      injection hsome with e1 e2
      subst e1 e2
      rw [heq]
      refine ⟨rfl, ⟨hrows, hcols, ?_, setSeat g (k / C) (k % C) ⟨1, roll⟩, ?_,
        shaped_setSeat hsh _ _ _, ?_⟩, rfl⟩
      · show (st.list ++ [(⟨roll, storedName name (k / C) (k % C), ((k / C : Nat) : Int),
          ((k % C : Nat) : Int)⟩ : Student)]).map Student.roll = rolls ++ [roll]
        rw [List.map_append, hrolls]
        rfl
      · show Option.map _ st.hall = _
        rw [hg]
        rfl
      · intro i j hi hj
        by_cases hat : i = k / C ∧ j = k % C
        · obtain ⟨rfl, rfl⟩ := hat
          rw [seatAt_setSeat_same hsh hi hj, rowmajor_at C k]
          constructor
          · intro _; omega
          · intro _
            show (1 : Int) ≠ 0
            decide
        · rw [seatAt_setSeat_other _ _ _ _ _ _ (by omega), hocc i j hi hj]
          have hne : i * C + j ≠ k := by
            intro hcon
            exact hat (rowmajor_unique C i j k hj hcon)
          omega
  · intro hk
    have hff : firstFree st = none := by
      rw [firstFree_eq_none, hRn, hCn]
      intro i j hi hj
      rw [hseat, hocc i j hi hj]
      have h1 : (i + 1) * C ≤ R * C := Nat.mul_le_mul_right C hi
      rw [Nat.add_mul, Nat.one_mul] at h1
      omega
    rcases hcases with ⟨h0, _⟩ | ⟨_, _, ⟨s, hs⟩, _⟩ | ⟨_, _, _, _, heq⟩ |
      ⟨_, _, _, i, j, hsome, _⟩
    · rw [hrows, hcols] at h0
      omega
    · rw [hfind] at hs; cases hs
    · exact heq
    · rw [hff] at hsome; cases hsome

theorem allocateAll_cons (st : State) (roll : Int) (name : String)
    (rest : List (Int × String)) :
    allocateAll st ((roll, name) :: rest) =
      (allocate_random st roll name).2 :: allocateAll (allocate_random st roll name).1 rest :=
  rfl

theorem allocateAll_filled (R C : Nat) (hR : 0 < R) (hC : 0 < C) :
    ∀ (reqs : List (Int × String)) (st : State) (k : Nat) (rolls : List Int),
      Filled st R C k rolls → (rolls ++ reqs.map Prod.fst).Nodup →
      ∀ (n : Nat) (roll : Int) (name : String), reqs[n]? = some (roll, name) →
        (allocateAll st reqs)[n]? =
          some (if k + n < R * C then Msg.allocated name roll ((k + n) / C) ((k + n) % C)
            else Msg.hallFull) := by
  intro reqs
  induction reqs with
  | nil =>
    intro st k rolls _ _ n roll name hn
    simp at hn
  | cons req rest ih =>
    obtain ⟨r0, n0⟩ := req
    intro st k rolls hF hnd n roll name hn
    have hmid : (r0 :: (rolls ++ rest.map Prod.fst)).Nodup := by
      have := hnd
      rw [List.map_cons] at this
      exact List.nodup_middle.mp this
    rw [List.nodup_cons] at hmid
    have hnew : r0 ∉ rolls := fun h => hmid.1 (List.mem_append_left _ h)
    obtain ⟨hstep, hfull⟩ := filled_step st R C k rolls r0 n0 hR hC hF hnew
    cases n with
    | zero =>
      simp only [List.getElem?_cons_zero, Option.some.injEq, Prod.mk.injEq] at hn
      obtain ⟨rfl, rfl⟩ := hn
      rw [allocateAll_cons, List.getElem?_cons_zero]
      by_cases hk : k < R * C
      · rw [(hstep hk).1, Nat.add_zero, if_pos hk]
      · rw [hfull (by omega), Nat.add_zero, if_neg hk]
    | succ m =>
      rw [List.getElem?_cons_succ] at hn
      rw [allocateAll_cons, List.getElem?_cons_succ]
      by_cases hk : k < R * C
      · have hnd2 : ((rolls ++ [r0]) ++ rest.map Prod.fst).Nodup := by
          rw [List.append_assoc]
          exact hnd
        rw [ih _ (k + 1) (rolls ++ [r0]) (hstep hk).2.1 hnd2 m roll name hn]
        have e : k + 1 + m = k + (m + 1) := by omega
        rw [e]
      · rw [hfull (by omega)]
        rw [ih st k rolls hF hmid.2 m roll name hn]
        rw [if_neg (by omega), if_neg (by omega)]

theorem allocateRun_filled (R C : Nat) (hR : 0 < R) (hC : 0 < C) :
    ∀ (reqs : List (Int × String)) (st : State) (k : Nat) (rolls : List Int),
      Filled st R C k rolls → (rolls ++ reqs.map Prod.fst).Nodup →
      k + reqs.length ≤ R * C →
      Filled (allocateRun st reqs) R C (k + reqs.length) (rolls ++ reqs.map Prod.fst) ∧
      ((Saved st ∨ reqs ≠ []) → Saved (allocateRun st reqs)) := by
  intro reqs
  induction reqs with
  | nil =>
    intro st k rolls hF _ _
    refine ⟨by simpa using hF, ?_⟩
    rintro (h | h)
    · exact h
    · exact absurd rfl h
  | cons req rest ih =>
    obtain ⟨r0, n0⟩ := req
    intro st k rolls hF hnd hlen
    have hmid : (r0 :: (rolls ++ rest.map Prod.fst)).Nodup := by
      have := hnd
      rw [List.map_cons] at this
      exact List.nodup_middle.mp this
    rw [List.nodup_cons] at hmid
    have hnew : r0 ∉ rolls := fun h => hmid.1 (List.mem_append_left _ h)
    simp only [List.length_cons] at hlen
    obtain ⟨hstep, _⟩ := filled_step st R C k rolls r0 n0 hR hC hF hnew
    obtain ⟨_, hF2, hsaved⟩ := hstep (by omega)
    have hnd2 : ((rolls ++ [r0]) ++ rest.map Prod.fst).Nodup := by
      rw [List.append_assoc]
      exact hnd
    obtain ⟨hF3, hS3⟩ := ih _ (k + 1) (rolls ++ [r0]) hF2 hnd2 (by omega)
    show Filled (allocateRun (allocate_random st r0 n0).1 rest) R C _ _ ∧ _
    refine ⟨?_, fun _ => hS3 (Or.inl hsaved)⟩
    have e1 : k + (rest.length + 1) = k + 1 + rest.length := by omega
    have e2 : rolls ++ List.map Prod.fst ((r0, n0) :: rest) =
        (rolls ++ [r0]) ++ List.map Prod.fst rest := by
      rw [List.map_cons, List.append_assoc]
      rfl
    rw [List.length_cons, e1, e2]
    exact hF3

theorem allocateRun_reachable (reqs : List (Int × String)) (st : State) (h : Reachable st) :
    Reachable (allocateRun st reqs) := by
  induction reqs generalizing st with
  | nil => exact h
  | cons req rest ih =>
    obtain ⟨r0, n0⟩ := req
    exact ih _ (Reachable.allocate st r0 n0 h)

theorem resize_empty_filled (R C : Nat) (hR1 : 1 ≤ R) (hR2 : R ≤ 100) (hC1 : 1 ≤ C)
    (hC2 : C ≤ 100) : Filled (resize State.empty R C) R C 0 [] := by
  have hd : (R : Int) ≠ State.empty.rows ∨ (C : Int) ≠ State.empty.cols := by
    left
    show (R : Int) ≠ 0
    omega
  rw [resize_in_range State.empty R C (by omega) (by show (R : Int) ≤ 100; omega) (by omega)
    (by show (C : Int) ≤ 100; omega) hd]
  have hs := rebuilt_shaped (R : Int) (C : Int) State.empty.list
  simp only [Int.toNat_ofNat] at hs
  refine ⟨rfl, rfl, rfl, _, rfl, hs, ?_⟩
  intro i j hi hj
  have hseat := rebuilt_seat (R : Int) (C : Int) State.empty.list i j (by simpa using hi)
    (by simpa using hj)
  rw [hseat]
  constructor
  · intro h; exact absurd rfl h
  · intro h; omega

/-- C16: starting from an empty hall of `R` x `C` seats (`R, C ≥ 1`; for
`R, C ≤ 100` the resize of the empty state is one), requests with pairwise
distinct rolls made one after another are answered as follows: request number
`k` (counting from 0) gets seat `(k / C, k % C)` when `k < R * C`, and every
later request is answered with `hallFull`. -/
theorem first_fit_sequence (st : State) (R C : Nat) (hR : 1 ≤ R) (hC : 1 ≤ C)
    (hempty : Filled st R C 0 []) (reqs : List (Int × String))
    (hnd : (reqs.map Prod.fst).Nodup) (k : Nat) (roll : Int) (name : String)
    (hk : reqs[k]? = some (roll, name)) :
    (allocateAll st reqs)[k]? =
      some (if k < R * C then Msg.allocated name roll (k / C) (k % C) else Msg.hallFull) := by
  have h := allocateAll_filled R C hR hC reqs st 0 [] hempty (by simpa using hnd) k roll name hk
  simpa using h

/-! ## Deallocate, then allocate again -/

theorem roster_split_of_mem (l : List Student) (s : Student)
    (hnd : (l.map Student.roll).Nodup) (hs : s ∈ l) :
    ∃ pre post, l = pre ++ s :: post ∧ ∀ t, t ∈ pre → t.roll ≠ s.roll := by
  obtain ⟨pre, post, hl⟩ := List.append_of_mem hs
  refine ⟨pre, post, hl, ?_⟩
  intro t ht htr
  rw [hl, List.map_append, List.map_cons] at hnd
  have hmid := List.nodup_middle.mp hnd
  rw [List.nodup_cons] at hmid
  apply hmid.1
  rw [← htr]
  exact List.mem_append_left _ (List.mem_map_of_mem _ ht)

/-- C17: in a reachable state, for a roster student `s` stored at an in-bounds
position `(r, c)` such that every seat before `(r, c)` in row-major order is
occupied, deallocating `s` and then allocating a roll that is not in the roster
(as it is after the deallocation) gives the new student the same seat `(r, c)`. -/
theorem deallocate_then_allocate (st : State) (s : Student) (roll2 : Int) (name : String)
    (hreach : Reachable st) (hs : s ∈ st.list)
    (hb : 0 ≤ s.row ∧ s.row < st.rows ∧ 0 ≤ s.col ∧ s.col < st.cols)
    (hbefore : ∀ i j, i < st.rows.toNat → j < st.cols.toNat →
      (i < s.row.toNat ∨ (i = s.row.toNat ∧ j < s.col.toNat)) → (st.seat i j).occupied ≠ 0)
    (hnew : ∀ t, t ∈ (deallocate_seat st s.roll).1.list → t.roll ≠ roll2) :
    (deallocate_seat st s.roll).2 = Msg.deallocated s.roll s.row s.col ∧
    (allocate_random (deallocate_seat st s.roll).1 roll2 name).2 =
      Msg.allocated name roll2 s.row.toNat s.col.toNat := by
  obtain ⟨hrolls, _, hgrid⟩ := reachable_inv st hreach
  obtain ⟨pre, post, hl, hpre⟩ := roster_split_of_mem st.list s hrolls hs
  have hdeal := deallocate_split st s.roll pre post s hl rfl hpre
  rw [hdeal] at hnew ⊢
  refine ⟨rfl, ?_⟩
  rcases hgrid with ⟨_, _, _, h0⟩ | ⟨hr1, _, hc1, _, g, hg, hsh, _⟩
  · rw [h0] at hs; cases hs
  · have hcl : clearedHall st s.row s.col = some (setSeat g s.row.toNat s.col.toNat ⟨0, 0⟩) := by
      unfold clearedHall
      rw [hg]
      simp only []
      rw [if_pos hb]
    obtain ⟨st2, hst2, h2r, h2c, h2h, h2l⟩ : ∃ st2 : State,
        (save_binary { st with hall := clearedHall st s.row s.col, list := pre ++ post }) = st2 ∧
        st2.rows = st.rows ∧ st2.cols = st.cols ∧
        st2.hall = some (setSeat g s.row.toNat s.col.toNat ⟨0, 0⟩) ∧
        st2.list = pre ++ post := ⟨_, rfl, rfl, rfl, hcl, rfl⟩
    simp only [hst2] at hnew ⊢
    have hprep : allocPrep st2 = st2 := allocPrep_of_grid st2 (by simp [h2h])
    have hfind : find_student st2 roll2 = none :=
      (find_student_eq_none st2 roll2).mpr hnew
    have hseat2 : ∀ i j, st2.seat i j = seatAt (setSeat g s.row.toNat s.col.toNat ⟨0, 0⟩) i j :=
      state_seat_of_hall st2 _ h2h
    have hff : firstFree st2 = some (s.row.toNat, s.col.toNat) := by
      rw [firstFree_eq_some, h2r, h2c]
      refine ⟨by omega, by omega, ?_, ?_⟩
      · rw [hseat2, seatAt_setSeat_same hsh (by omega) (by omega)]
      · intro i j hi hj hord
        rw [hseat2, seatAt_setSeat_other _ _ _ _ _ _ (by omega)]
        have := hbefore i j hi hj hord
        rw [state_seat_of_hall st g hg] at this
        exact this
    have hcases := allocate_cases st2 roll2 name
    rw [hprep] at hcases
    rcases hcases with ⟨h0, _⟩ | ⟨_, _, ⟨t, ht⟩, _⟩ | ⟨_, _, _, hnone, _⟩ |
      ⟨_, _, _, i, j, hsome, heq⟩
    · rw [h2r, h2c] at h0
      omega
    · rw [hfind] at ht; cases ht
    · rw [hff] at hnone; cases hnone
    · rw [hff] at hsome
      injection hsome with hsome
      injection hsome with e1 e2
      subst e1 e2
      rw [heq]

/-! ## The roster limit of the data file -/

theorem requestsUpTo_length (n : Nat) : (requestsUpTo n).length = n := by
  unfold requestsUpTo
  rw [List.length_map, List.length_range]

theorem requestsUpTo_nodup (n : Nat) : ((requestsUpTo n).map Prod.fst).Nodup := by
  unfold requestsUpTo
  rw [List.map_map]
  apply List.Nodup.map _ (List.nodup_range n)
  intro a b hab
  simp only [Function.comp] at hab
  omega

theorem run_requests_filled (R C n : Nat) (hR1 : 1 ≤ R) (hR2 : R ≤ 100) (hC1 : 1 ≤ C)
    (hC2 : C ≤ 100) (hn1 : 1 ≤ n) (hn : n ≤ R * C) :
    Filled (allocateRun (resize State.empty R C) (requestsUpTo n)) R C n
      ((requestsUpTo n).map Prod.fst) ∧
    Saved (allocateRun (resize State.empty R C) (requestsUpTo n)) := by
  have h0 := resize_empty_filled R C hR1 hR2 hC1 hC2
  have hlen := requestsUpTo_length n
  have hne : requestsUpTo n ≠ [] := by
    intro h
    rw [h] at hlen
    simp at hlen
    omega
  have h := allocateRun_filled R C hR1 hC1 (requestsUpTo n) (resize State.empty R C) 0 [] h0
    (by rw [List.nil_append]; exact requestsUpTo_nodup n) (by rw [hlen]; omega)
  rw [hlen, Nat.zero_add, List.nil_append] at h
  exact ⟨h.1, h.2 (Or.inr hne)⟩

/-- C20 (the code at the failing input): the state reached by resizing the empty
state to 6 x 100 and allocating rolls 1, ..., 501 has 501 roster entries; the
file `save_binary` wrote for it declares `count = 501`, and loading that file at
the next process start resets everything: no roster, no dimensions, no file. -/
theorem overfull_roster_discarded :
    Reachable overfullState ∧ overfullState.list.length = 501 ∧
    ¬ ((overfullState.list.length : Int) ≤ MAX_STUDENTS) ∧
    overfullState.file = some ⟨6, 100, 501, overfullState.list⟩ ∧
    (load_binary (processStart overfullState.file)).state = State.empty ∧
    (load_binary (processStart overfullState.file)).count = 0 := by
  have hrun := run_requests_filled 6 100 501 (by omega) (by omega) (by omega) (by omega)
    (by omega) (by omega)
  have hfs : Filled overfullState 6 100 501 ((requestsUpTo 501).map Prod.fst) ∧
      Saved overfullState := hrun
  obtain ⟨⟨hr, hc, hrolls, _⟩, hsaved⟩ := hfs
  have hlen : overfullState.list.length = 501 := by
    have h := congrArg List.length hrolls
    rw [List.length_map, List.length_map, requestsUpTo_length] at h
    exact h
  have hfile : overfullState.file = some ⟨6, 100, 501, overfullState.list⟩ := by
    have h := hsaved
    unfold Saved at h
    rw [hr, hc, hlen] at h
    exact h
  have hbad : (501 : Int) > MAX_STUDENTS := by
    show (500 : Int) < 501
    omega
  have hload := load_out_of_range (processStart overfullState.file)
    ⟨6, 100, 501, overfullState.list⟩ (by rw [hfile]; rfl)
    (Or.inr (Or.inr (Or.inr (Or.inr (Or.inr hbad)))))
  refine ⟨?_, hlen, ?_, hfile, ?_, ?_⟩
  · exact allocateRun_reachable _ _ (Reachable.resize _ _ _ Reachable.empty)
  · rw [hlen]
    show ¬ ((501 : Int) ≤ 500)
    omega
  · rw [hload]
    rfl
  · rw [hload]

/-! ## Further instances at concrete inputs -/

/-- Instance of C11 (amended): saving and loading `threeSeated`. -/
theorem save_load_round_trip_witness :
    (0 < threeSeated.rows ∧ 0 < threeSeated.cols) ∧ threeSeated.list.length ≤ 500 ∧
    (load_binary (processStart (save_binary threeSeated).file)).state.rows = threeSeated.rows ∧
    (load_binary (processStart (save_binary threeSeated).file)).state.cols = threeSeated.cols ∧
    (load_binary (processStart (save_binary threeSeated).file)).state.list = threeSeated.list ∧
    (load_binary (processStart (save_binary threeSeated).file)).count =
      threeSeated.list.length :=
  ⟨by decide, by decide,
    save_load_round_trip threeSeated (by decide) (by decide) (by decide) (by decide)
      (by decide) (Or.inr (by decide))⟩

/-- Instance of C12: a data file with `rows = 9999`. -/
theorem load_corrupt_header_witness :
    corruptFile.rows > 100 ∧
    (load_binary (processStart (some corruptFile))).state.rows = 0 ∧
    (load_binary (processStart (some corruptFile))).state.cols = 0 ∧
    (load_binary (processStart (some corruptFile))).count = 0 ∧
    (load_binary (processStart (some corruptFile))).state.hall = none ∧
    (load_binary (processStart (some corruptFile))).state.list = [] ∧
    (load_binary (processStart (some corruptFile))).state.file = none :=
  ⟨by decide,
    load_corrupt_header (processStart (some corruptFile)) corruptFile rfl
      (Or.inr (Or.inl (by decide)))⟩

/-- Instance of C14 at the full 2 x 2 hall. -/
theorem reachable_rolls_unique_witness :
    Reachable fullHall ∧ fullHall.list.Pairwise (fun a b => a.roll ≠ b.roll) :=
  ⟨fullHall_reachable, (reachable_rolls_unique fullHall fullHall_reachable).1⟩

/-- Instance of C15 (amended) at the full 2 x 2 hall. -/
theorem reachable_capacity_witness :
    Reachable fullHall ∧ fullHall.rows * fullHall.cols ≤ 10000 :=
  ⟨fullHall_reachable, (reachable_capacity fullHall fullHall_reachable).2.2.2.2⟩

/-- Instance of C16: five distinct rolls into the empty 2 x 2 hall get
`(0,0)`, `(0,1)`, `(1,0)`, `(1,1)` and then `hallFull`. -/
theorem first_fit_sequence_witness :
    allocateAll (resize State.empty 2 2) [(5, "a"), (9, "b"), (2, "c"), (7, "d"), (3, "e")] =
      [Msg.allocated "a" 5 0 0, Msg.allocated "b" 9 0 1, Msg.allocated "c" 2 1 0,
        Msg.allocated "d" 7 1 1, Msg.hallFull] ∧
    (allocateAll (resize State.empty 2 2)
      [(5, "a"), (9, "b"), (2, "c"), (7, "d"), (3, "e")])[2]? =
      some (if 2 < 2 * 2 then Msg.allocated "c" 2 (2 / 2) (2 % 2) else Msg.hallFull) ∧
    (allocateAll (resize State.empty 2 2)
      [(5, "a"), (9, "b"), (2, "c"), (7, "d"), (3, "e")])[4]? =
      some (if 4 < 2 * 2 then Msg.allocated "e" 3 (4 / 2) (4 % 2) else Msg.hallFull) :=
  ⟨by decide,
    first_fit_sequence (resize State.empty 2 2) 2 2 (by decide) (by decide)
      (resize_empty_filled 2 2 (by decide) (by decide) (by decide) (by decide))
      [(5, "a"), (9, "b"), (2, "c"), (7, "d"), (3, "e")] (by decide) 2 2 "c" rfl,
    first_fit_sequence (resize State.empty 2 2) 2 2 (by decide) (by decide)
      (resize_empty_filled 2 2 (by decide) (by decide) (by decide) (by decide))
      [(5, "a"), (9, "b"), (2, "c"), (7, "d"), (3, "e")] (by decide) 4 3 "e" rfl⟩

theorem fullHall_all_occupied :
    ∀ i j, i < fullHall.rows.toNat → j < fullHall.cols.toNat → (fullHall.seat i j).occupied ≠ 0 := by
  intro i j hi hj
  have hr : fullHall.rows.toNat = 2 := by decide
  have hc : fullHall.cols.toNat = 2 := by decide
  rw [hr] at hi
  rw [hc] at hj
  interval_cases i <;> interval_cases j <;> decide

/-- Instance of C17: in the full 2 x 2 hall, roll 2 sits at `(0, 1)`; after its
deallocation the new roll 9 gets `(0, 1)`. -/
theorem deallocate_then_allocate_witness :
    Reachable fullHall ∧ (⟨2, "b", 0, 1⟩ : Student) ∈ fullHall.list ∧
    (deallocate_seat fullHall 2).2 = Msg.deallocated 2 0 1 ∧
    (allocate_random (deallocate_seat fullHall 2).1 9 "n").2 = Msg.allocated "n" 9 0 1 :=
  ⟨fullHall_reachable, by decide,
    deallocate_then_allocate fullHall ⟨2, "b", 0, 1⟩ 9 "n" fullHall_reachable (by decide)
      (by decide) (fun i j hi hj _ => fullHall_all_occupied i j hi hj) (by decide)⟩

/-- Instance of C18: `gridlessState` (2 x 2, no grid) gets its grid and keeps its
roster; `oversizedState` (101 x 1, no grid) is reset. -/
theorem ensure_grid_cases_witness :
    gridlessState.hall = none ∧ 0 < gridlessState.rows ∧ 0 < gridlessState.cols ∧
    (ensure_hall_allocated gridlessState).list = gridlessState.list ∧
    (ensure_hall_allocated gridlessState).hall = some [[⟨0, 0⟩, ⟨0, 0⟩], [⟨0, 0⟩, ⟨0, 0⟩]] ∧
    (ensure_hall_allocated oversizedState).list = [] ∧
    (ensure_hall_allocated oversizedState).rows = 0 :=
  ⟨rfl, by decide, by decide,
    ((ensure_grid_cases gridlessState rfl (by decide) (by decide)).2.2 (by decide)).2.2.1,
    by decide,
    ((ensure_grid_cases oversizedState rfl (by decide) (by decide)).1
      (Or.inl (by decide))).2.2.2.1,
    ((ensure_grid_cases oversizedState rfl (by decide) (by decide)).1 (Or.inl (by decide))).1⟩

/-- Instance of C19 at `gridlessState` and `oversizedState`. -/
theorem ensure_idempotent_witness :
    ensure_hall_allocated (ensure_hall_allocated gridlessState) =
      ensure_hall_allocated gridlessState ∧
    ensure_hall_allocated (ensure_hall_allocated oversizedState) =
      ensure_hall_allocated oversizedState :=
  ⟨ensure_idempotent gridlessState, ensure_idempotent oversizedState⟩
end SeatAlloc
